import Mathlib

/-!
# refcount: a mutex-guarded reference count in front of a heap block

A shallow embedding of `src/refcount.c` (with `obj_t` from `src/refcount.h`).

* The heap maps the base address of a block to its control block `obj_t`
  (fields `data`, `mutex`, `ref`); an address that is not mapped is not
  allocated, and touching it is undefined behaviour.
* A handle is the address of the payload, `base + sizeof(obj_t)`; every
  library function steps back by `sizeof(obj_t)` to find the control block.
  `sizeof(obj_t)` depends on the platform, so it is the parameter `sz`.
* `int` is 32 bits wide and wraps in two's complement (`wrapInt`);
  `size_t` is 64 bits wide (`wrapSize`).
* The number of bytes asked of `calloc` is computed as the source computes it,
  modulo `2^64`.  A block of fewer than `sizeof(obj_t)` bytes has no room for
  a control block: nothing is mapped at its base, and the writes `ref_alloc`
  makes to the fields of `obj_t` there are out of bounds, hence undefined.
* The mutex is a default POSIX mutex.  A call that would wait for the mutex
  does not return in the state it was made in: its outcome is `Stuck.blocks`.
  Outcomes the C or POSIX standard leave undefined are `Stuck.undefined`.
  A mutex can also be in a condition in which the lock calls of the platform
  fail with an error number (`Mutex.failing`).
* What the environment decides (the address `calloc` returns, the status of
  `pthread_mutex_init` and of `pthread_create`) is an argument of the call.
* Every primitive appends an `Event` to the log of the world, so the order of
  the effects of a call can be read off afterwards.
* The worker threads `incr` and `decr` of `src/main.c` are a step relation on
  the world, the payload and the program points of the workers; an
  interleaving is the list of the workers scheduled, one step each.
-/

namespace Refcount

/-- Thread identifiers. -/
abbrev Tid := Nat

/-- Addresses; `0` is `NULL`. -/
abbrev Addr := Nat

/-- The largest `int`. -/
def INT_MAX : Int := 2147483647

/-- The smallest `int`. -/
def INT_MIN : Int := -2147483648

/-- Reduction of an integer to the 32-bit two's complement range of `int`. -/
def wrapInt (x : Int) : Int := (x + 2147483648) % 4294967296 - 2147483648

/-- Reduction of a natural number to the range of a 64-bit `size_t`. -/
def wrapSize (n : Nat) : Nat := n % 18446744073709551616

/-- The largest `size_t`. -/
def SIZE_MAX : Nat := 18446744073709551615

/-- The status `EBUSY` of `pthread_mutex_trylock`. -/
def EBUSY : Int := 16

/-- The error number `EINVAL`. -/
def EINVAL : Int := 22

/-- Why a call has no result in the state it was made in. -/
inductive Stuck
  | blocks
  | undefined
deriving DecidableEq, Repr

/-- The state of a `pthread_mutex_t`.  `failing status` is a mutex in a
condition in which `pthread_mutex_lock`, `pthread_mutex_trylock` and
`pthread_mutex_unlock` fail with the error number `status` (not `0`) and leave
the mutex as it is. -/
inductive Mutex
  | uninit
  | unlocked
  | lockedBy (owner : Tid)
  | destroyed
  | failing (status : Int)
deriving DecidableEq, Repr

/-- The control block `obj_t` of `refcount.h`. -/
structure obj_t where
  data : Addr
  mutex : Mutex
  ref : Int
deriving DecidableEq, Repr

/-- The effects of the primitives, in the order they happen. -/
inductive Event
  | calloc (bytes : Nat) (res : Addr)
  | mutex_init (a : Addr) (status : Int)
  | mutex_lock (t : Tid) (a : Addr) (status : Int)
  | mutex_trylock (t : Tid) (a : Addr) (status : Int)
  | mutex_unlock (t : Tid) (a : Addr) (status : Int)
  | mutex_destroy (a : Addr) (status : Int)
  | free (a : Addr)
  | store_ref (a : Addr) (v : Int)
  | load_ref (a : Addr) (v : Int)
  | store_data (a : Addr) (v : Addr)
  | thread_create (t : Tid) (routine : Nat) (arg : Addr) (status : Int)
deriving DecidableEq, Repr

/-- The heap and the log of effects. -/
structure World where
  heap : Addr → Option obj_t
  log : List Event

/-- Append an event to the log. -/
def World.emit (w : World) (e : Event) : World :=
  { w with log := w.log ++ [e] }

/-- Overwrite (or unmap, with `none`) the control block at `a`. -/
def World.store (w : World) (a : Addr) (o : Option obj_t) : World :=
  { w with heap := Function.update w.heap a o }

/-- Read the control block at `a`; undefined when nothing is allocated there. -/
def World.load (w : World) (a : Addr) : Except Stuck obj_t :=
  match w.heap a with
  | some o => .ok o
  | none => .error .undefined

/-- The empty world: nothing allocated, nothing logged. -/
def World.empty : World := { heap := fun _ => none, log := [] }

/-- `pthread_mutex_init(m, NULL)`: the environment decides the status; status
`0` leaves an unlocked mutex, any other status leaves the storage as it was.
Initialising a mutex that is already initialised is undefined. -/
def pthread_mutex_init (status : Int) : Mutex → Except Stuck (Int × Mutex)
  | .uninit => .ok (status, if status = 0 then .unlocked else .uninit)
  | .destroyed => .ok (status, if status = 0 then .unlocked else .destroyed)
  | _ => .error .undefined

/-- `pthread_mutex_lock` by thread `t`: acquires an unlocked mutex; on a held
mutex the caller waits (a default mutex held by the caller itself never gets
free, the caller waits for ever); on a failing mutex it returns the error
number. -/
def pthread_mutex_lock (t : Tid) : Mutex → Except Stuck (Int × Mutex)
  | .unlocked => .ok (0, .lockedBy t)
  | .lockedBy _ => .error .blocks
  | .failing s => if s = 0 then .error .undefined else .ok (s, .failing s)
  | _ => .error .undefined

/-- `pthread_mutex_trylock` by thread `t`: acquires an unlocked mutex, returns
`EBUSY` at once on a held one, and the error number on a failing one. -/
def pthread_mutex_trylock (t : Tid) : Mutex → Except Stuck (Int × Mutex)
  | .unlocked => .ok (0, .lockedBy t)
  | .lockedBy u => .ok (EBUSY, .lockedBy u)
  | .failing s => if s = 0 then .error .undefined else .ok (s, .failing s)
  | _ => .error .undefined

/-- `pthread_mutex_unlock` by thread `t`: releases a mutex `t` holds; unlocking
a default mutex the caller does not hold is undefined; on a failing mutex it
returns the error number. -/
def pthread_mutex_unlock (t : Tid) : Mutex → Except Stuck (Int × Mutex)
  | .lockedBy u => if u = t then .ok (0, .unlocked) else .error .undefined
  | .failing s => if s = 0 then .error .undefined else .ok (s, .failing s)
  | _ => .error .undefined

/-- `pthread_mutex_destroy`: destroys an unlocked mutex; destroying a held or
an uninitialised one is undefined. -/
def pthread_mutex_destroy : Mutex → Except Stuck (Int × Mutex)
  | .unlocked => .ok (0, .destroyed)
  | _ => .error .undefined

/-- Apply a mutex primitive to `&obj->mutex` of the block at `a` and log it. -/
def mutexOp (prim : Mutex → Except Stuck (Int × Mutex)) (ev : Int → Event)
    (a : Addr) (w : World) : Except Stuck (Int × World) :=
  match w.heap a with
  | none => .error .undefined
  | some o =>
    match prim o.mutex with
    | .error e => .error e
    | .ok r => .ok (r.1, (w.store a (some { o with mutex := r.2 })).emit (ev r.1))

/-- `calloc(bytes, 1)` with the environment's answer `res`: `0` is failure,
any other address is the base of a new zero-filled block of `bytes` bytes.
The heap holds control blocks, each `sz = sizeof(obj_t)` bytes long: a block
of at least `sz` bytes is mapped as a zero-filled `obj_t`; a shorter block has
no room for one, so nothing is mapped at `res` and every access to a field of
`obj_t` there is out of bounds. -/
def calloc (sz : Nat) (bytes : Nat) (res : Addr) (w : World) : World :=
  if res = 0 then w.emit (.calloc bytes 0)
  else if sz ≤ bytes then
    (w.store res (some { data := 0, mutex := .uninit, ref := 0 })).emit (.calloc bytes res)
  else (w.store res none).emit (.calloc bytes res)

/-- `free(obj)`: unmaps the block; freeing what is not allocated is undefined. -/
def free (a : Addr) (w : World) : Except Stuck World :=
  match w.heap a with
  | none => .error .undefined
  | some _ => .ok ((w.store a none).emit (.free a))

/-- The assignment `obj->ref = v`. -/
def storeRef (a : Addr) (v : Int) (w : World) : Except Stuck World :=
  match w.heap a with
  | none => .error .undefined
  | some o => .ok ((w.store a (some { o with ref := v })).emit (.store_ref a v))

/-- The read `obj->ref`. -/
def loadRef (a : Addr) (w : World) : Except Stuck (Int × World) :=
  match w.heap a with
  | none => .error .undefined
  | some o => .ok (o.ref, w.emit (.load_ref a o.ref))

/-- The assignment `obj->data = v`. -/
def storeData (a : Addr) (v : Addr) (w : World) : Except Stuck World :=
  match w.heap a with
  | none => .error .undefined
  | some o => .ok ((w.store a (some { o with data := v })).emit (.store_data a v))

/-- The step `cptr = (char *)ptr; cptr -= sizeof(obj_t); obj = (obj_t *)cptr`
every library function starts with. -/
def header (sz : Nat) (ptr : Addr) : Except Stuck Addr :=
  if sz ≤ ptr then .ok (ptr - sz) else .error .undefined

/-- `void *ref_alloc(size_t size)` (refcount.c, lines 22-43).  `res` is what
`calloc` answers and `initStatus` what `pthread_mutex_init` answers.  The sum
`sizeof(obj_t) + size` is computed in `size_t` and not checked: when it wraps,
the block is shorter than `obj_t` and the write `obj->ref = 1` is out of
bounds. -/
def ref_alloc (sz : Nat) (size : Nat) (res : Addr) (initStatus : Int) (w : World) :
    Except Stuck (Addr × World) :=
  let w1 := calloc sz (wrapSize (sz + size)) res w
  if res = 0 then
    .ok (0, w1)
  else do
    let w2 ← storeRef res 1 w1
    let r ← mutexOp (pthread_mutex_init initStatus) (Event.mutex_init res) res w2
    if r.1 ≠ 0 then
      let w3 ← free res r.2
      pure (0, w3)
    else
      let w3 ← storeData res (res + sz) r.2
      pure (res + sz, w3)

/-- `void ref_retain(void *ptr)` called by thread `t` (refcount.c, lines 45-56).
The statuses of the lock and the unlock are ignored, as in the source. -/
def ref_retain (sz : Nat) (t : Tid) (ptr : Addr) (w : World) : Except Stuck World := do
  let a ← header sz ptr
  let r1 ← mutexOp (pthread_mutex_lock t) (Event.mutex_lock t a) a w
  let o ← r1.2.load a
  let w2 ← storeRef a (wrapInt (o.ref + 1)) r1.2
  let r3 ← mutexOp (pthread_mutex_unlock t) (Event.mutex_unlock t a) a w2
  pure r3.2

/-- `void ref_release(void *ptr)` called by thread `t` (refcount.c, lines 58-79).
`obj->ref-- == 0` compares the value the count had before the decrement.  The
local copy `mutex = obj->mutex` of line 68 is never used again. -/
def ref_release (sz : Nat) (t : Tid) (ptr : Addr) (w : World) : Except Stuck World := do
  let a ← header sz ptr
  let r1 ← mutexOp (pthread_mutex_lock t) (Event.mutex_lock t a) a w
  let o ← r1.2.load a
  let dofree : Bool := decide (o.ref = 0)
  let w2 ← storeRef a (wrapInt (o.ref - 1)) r1.2
  let r3 ← mutexOp (pthread_mutex_unlock t) (Event.mutex_unlock t a) a w2
  if dofree then
    let r4 ← mutexOp pthread_mutex_destroy (Event.mutex_destroy a) a r3.2
    free a r4.2
  else
    pure r3.2

/-- `int ref_count(void *ptr)` called by thread `t` (refcount.c, lines 81-95). -/
def ref_count (sz : Nat) (t : Tid) (ptr : Addr) (w : World) : Except Stuck (Int × World) := do
  let a ← header sz ptr
  let r1 ← mutexOp (pthread_mutex_lock t) (Event.mutex_lock t a) a w
  let r2 ← loadRef a r1.2
  let r3 ← mutexOp (pthread_mutex_unlock t) (Event.mutex_unlock t a) a r2.2
  pure (r2.1, r3.2)

/-- `int ref_pthread_mutex_lock(void *ptr)` (refcount.c, lines 97-106). -/
def ref_pthread_mutex_lock (sz : Nat) (t : Tid) (ptr : Addr) (w : World) :
    Except Stuck (Int × World) := do
  let a ← header sz ptr
  mutexOp (pthread_mutex_lock t) (Event.mutex_lock t a) a w

/-- `int ref_pthread_mutex_unlock(void *ptr)` (refcount.c, lines 108-117). -/
def ref_pthread_mutex_unlock (sz : Nat) (t : Tid) (ptr : Addr) (w : World) :
    Except Stuck (Int × World) := do
  let a ← header sz ptr
  mutexOp (pthread_mutex_unlock t) (Event.mutex_unlock t a) a w

/-- `int ref_pthread_mutex_trylock(void *ptr)` (refcount.c, lines 119-128). -/
def ref_pthread_mutex_trylock (sz : Nat) (t : Tid) (ptr : Addr) (w : World) :
    Except Stuck (Int × World) := do
  let a ← header sz ptr
  mutexOp (pthread_mutex_trylock t) (Event.mutex_trylock t a) a w

/-- `pthread_create(thread, attr, start_routine, arg)` with the environment's
status `ret`: the attempt is logged together with its status. -/
def pthread_create (t : Tid) (routine : Nat) (arg : Addr) (ret : Int) (w : World) :
    Int × World :=
  (ret, w.emit (.thread_create t routine arg ret))

/-- `int ref_pthread_create(thread, attr, start_routine, arg)` called by thread
`t` (refcount.c, lines 130-140); `ret` is what `pthread_create` answers. -/
def ref_pthread_create (sz : Nat) (t : Tid) (routine : Nat) (arg : Addr) (ret : Int)
    (w : World) : Except Stuck (Int × World) := do
  let w1 ← ref_retain sz t arg w
  let r := pthread_create t routine arg ret w1
  if r.1 ≠ 0 then
    let w2 ← ref_release sz t arg r.2
    pure (r.1, w2)
  else
    pure (r.1, r.2)

/-- A call of the reference-count protocol on one handle, with the calling
thread. -/
inductive Op
  | retain (t : Tid)
  | release (t : Tid)
deriving DecidableEq, Repr

/-- Apply one call to the handle `ptr`. -/
def step (sz : Nat) (ptr : Addr) : Op → World → Except Stuck World
  | .retain t, w => ref_retain sz t ptr w
  | .release t, w => ref_release sz t ptr w

/-- Apply a sequence of calls to the handle `ptr`, one after the other. -/
def run (sz : Nat) (ptr : Addr) : List Op → World → Except Stuck World
  | [], w => .ok w
  | op :: ops, w =>
    match step sz ptr op w with
    | .ok w1 => run sz ptr ops w1
    | .error e => .error e

/-- The number of `ref_retain` calls in a sequence. -/
def retains : List Op → Nat
  | [] => 0
  | .retain _ :: ops => retains ops + 1
  | .release _ :: ops => retains ops

/-- The number of `ref_release` calls in a sequence. -/
def releases : List Op → Nat
  | [] => 0
  | .retain _ :: ops => releases ops
  | .release _ :: ops => releases ops + 1

/-- How often the block at `a` was freed according to a log. -/
def frees (a : Addr) (log : List Event) : Nat :=
  log.count (Event.free a)

/-- No call of the sequence overflows the `int` count of the block at `a`:
every `ref_retain` finds it below `INT_MAX` and every `ref_release` above
`INT_MIN`. -/
def noOverflow (sz : Nat) (a : Addr) : List Op → World → Bool
  | [], _ => true
  | op :: ops, w =>
    (match op, w.heap a with
      | .retain _, some o => decide (o.ref < INT_MAX)
      | .release _, some o => decide (INT_MIN < o.ref)
      | _, none => true) &&
    (match step sz (a + sz) op w with
      | .ok w1 => noOverflow sz a ops w1
      | .error _ => true)

/-- A world whose only block, at `1000`, is live with an unlocked mutex and
the count `n`; its handle is `1056` when `sizeof(obj_t)` is `56`. -/
def sample (n : Int) : World :=
  World.empty.store 1000 (some { data := 1056, mutex := .unlocked, ref := n })

/-- The world `sample n` with the mutex held by thread `u`. -/
def sampleHeld (n : Int) (u : Tid) : World :=
  World.empty.store 1000 (some { data := 1056, mutex := .lockedBy u, ref := n })

/-- The world `sample n` with the mutex in a condition in which the lock calls
fail with the error number `s`. -/
def sampleFailing (n : Int) (s : Int) : World :=
  World.empty.store 1000 (some { data := 1056, mutex := .failing s, ref := n })

/-- The world a call leaves behind; the empty world when it has no result. -/
def worldOf (r : Except Stuck World) : World :=
  match r with
  | .ok w => w
  | .error _ => World.empty

/-- The world right after `ref_alloc(4)` succeeded in the empty world with the
block at `1000`; the handle is `1056` when `sizeof(obj_t)` is `56`. -/
def fresh : World :=
  match ref_alloc 56 4 1000 0 World.empty with
  | .ok r => r.2
  | .error _ => World.empty

/-- Every write of the count of the block at `a` in a trace happens while the
mutex of that block is held: `held` is the thread that holds it when the trace
starts; a lock or trylock with status 0 acquires, an unlock with status 0
releases. -/
def writesGuarded (a : Addr) : Option Tid → List Event → Bool
  | _, [] => true
  | held, .mutex_lock t b st :: es =>
    if b = a ∧ st = 0 then writesGuarded a (some t) es else writesGuarded a held es
  | held, .mutex_trylock t b st :: es =>
    if b = a ∧ st = 0 then writesGuarded a (some t) es else writesGuarded a held es
  | held, .mutex_unlock _ b st :: es =>
    if b = a ∧ st = 0 then writesGuarded a none es else writesGuarded a held es
  | held, .store_ref b _ :: es =>
    if b = a then held.isSome && writesGuarded a held es else writesGuarded a held es
  | held, _ :: es => writesGuarded a held es

/-! ## The worker threads of the demo (`incr` and `decr` of main.c) under interleaving

Each worker prints `ref_count`, runs its loop (lock, read `*an_int`, write it
back one higher or lower, unlock; the `sched_yield` calls do nothing to the
state), calls `ref_release` and prints `ref_count` again.  A step of a worker
is one call of the library or one access to the payload; a call that has to
wait for the mutex is not taken, the scheduler moves on.  The read and the
write of `(*an_int)++` are two steps, so that an update could be lost if
another worker came in between. -/

/-- Where a worker stands; `k` counts the iterations of its loop still to be
started (`top`, `entry`) or to follow the current one. -/
inductive Pc
  | entry (k : Nat)
  | top (k : Nat)
  | locked (k : Nat)
  | loaded (k : Nat) (r : Int)
  | stored (k : Nat)
  | report
  | done
  | exited
deriving DecidableEq, Repr

/-- A worker: `dec` tells `decr` from `incr`. -/
structure Thread where
  dec : Bool
  pc : Pc
deriving DecidableEq, Repr

/-- The world, the payload `*an_int` and the workers, thread `i` being the
`i`-th of the list. -/
structure Sys where
  world : World
  val : Int
  threads : List Thread

/-- The payload can be accessed: the handle belongs to an allocated block. -/
def payload (sz : Nat) (ptr : Addr) (w : World) : Except Stuck obj_t := do
  let a ← header sz ptr
  w.load a

/-- One step of worker `i` (main.c, lines 29-98). -/
def threadStep (sz : Nat) (ptr : Addr) (i : Tid) (th : Thread) (w : World) (v : Int) :
    Except Stuck (Thread × World × Int) :=
  match th.pc with
  | .entry k => do
    let r ← ref_count sz i ptr w
    pure ({ th with pc := .top k }, r.2, v)
  | .top (k + 1) => do
    let r ← ref_pthread_mutex_lock sz i ptr w
    if r.1 ≠ 0 then pure ({ th with pc := .exited }, r.2, v)
    else pure ({ th with pc := .locked k }, r.2, v)
  | .top 0 => do
    let w1 ← ref_release sz i ptr w
    pure ({ th with pc := .report }, w1, v)
  | .locked k => do
    let _ ← payload sz ptr w
    pure ({ th with pc := .loaded k v }, w, v)
  | .loaded k r => do
    let _ ← payload sz ptr w
    pure ({ th with pc := .stored k }, w, wrapInt (if th.dec then r - 1 else r + 1))
  | .stored k => do
    let r ← ref_pthread_mutex_unlock sz i ptr w
    pure ({ th with pc := .top k }, r.2, v)
  | .report => do
    let r ← ref_count sz i ptr w
    pure ({ th with pc := .done }, r.2, v)
  | .done => pure (th, w, v)
  | .exited => pure (th, w, v)

/-- The scheduler lets worker `i` take a step; a worker that waits, or that
does not exist, leaves the system as it is. -/
def sysStep (sz : Nat) (ptr : Addr) (i : Tid) (s : Sys) : Except Stuck Sys :=
  match s.threads[i]? with
  | none => .ok s
  | some th =>
    match threadStep sz ptr i th s.world s.val with
    | .ok r => .ok { world := r.2.1, val := r.2.2, threads := s.threads.set i r.1 }
    | .error .blocks => .ok s
    | .error .undefined => .error .undefined

/-- Run an interleaving: the list names the worker scheduled at each step. -/
def exec (sz : Nat) (ptr : Addr) : List Tid → Sys → Except Stuck Sys
  | [], s => .ok s
  | i :: rest, s =>
    match sysStep sz ptr i s with
    | .ok s1 => exec sz ptr rest s1
    | .error e => .error e

/-- The worker is between its lock and its unlock. -/
def Pc.inCrit : Pc → Bool
  | .locked _ => true
  | .loaded _ _ => true
  | .stored _ => true
  | _ => false

/-- The number of writes to the payload a worker still has to make. -/
def Pc.todo : Pc → Nat
  | .entry k => k
  | .top k => k
  | .locked k => k + 1
  | .loaded k _ => k + 1
  | .stored k => k
  | _ => 0

/-- Whether the worker still has its `ref_release` to call (1) or not (0). -/
def Pc.owes : Pc → Nat
  | .report => 0
  | .done => 0
  | .exited => 0
  | _ => 1

/-- What a worker will still add to the payload. -/
def Thread.delta (th : Thread) : Int :=
  if th.dec then -(th.pc.todo : Int) else (th.pc.todo : Int)

/-- What the workers together will still add to the payload. -/
def pending : List Thread → Int
  | [] => 0
  | th :: ths => th.delta + pending ths

/-- The number of `ref_release` calls the workers still have to make. -/
def owed : List Thread → Nat
  | [] => 0
  | th :: ths => th.pc.owes + owed ths

/-- The number of increments the workers still have to make. -/
def increments : List Thread → Nat
  | [] => 0
  | th :: ths => (if th.dec then 0 else th.pc.todo) + increments ths

/-- The number of decrements the workers still have to make. -/
def decrements : List Thread → Nat
  | [] => 0
  | th :: ths => (if th.dec then th.pc.todo else 0) + decrements ths

/-- Every worker has returned. -/
def allDone (ths : List Thread) : Bool :=
  ths.all fun th => decide (th.pc = .done)

/-- Every worker is at the start of its function. -/
def allAtEntry (ths : List Thread) : Bool :=
  ths.all fun th => match th.pc with
    | .entry _ => true
    | _ => false

/-- The number of steps a worker still has to take. -/
def Pc.left : Pc → Nat
  | .entry k => 4 * k + 3
  | .top k => 4 * k + 2
  | .locked k => 4 * k + 5
  | .loaded k _ => 4 * k + 4
  | .stored k => 4 * k + 3
  | .report => 1
  | .done => 0
  | .exited => 0

/-- The number of steps the workers together still have to take. -/
def stepsLeft : List Thread → Nat
  | [] => 0
  | th :: ths => th.pc.left + stepsLeft ths

/-- What holds in every state the workers can reach: the block at `a` is
allocated and its mutex is free or held by a worker; exactly the worker that
holds the mutex is between its lock and its unlock; no worker has left through
`exit`; a value a worker has read is still the payload; the payload plus what
is still to be added is `total`, up to the width of `int`; the count covers
the releases still to come. -/
def Inv (a : Addr) (total : Int) (s : Sys) : Prop :=
  ∃ o, s.world.heap a = some o ∧
    (o.mutex = .unlocked ∨ ∃ j, j < s.threads.length ∧ o.mutex = .lockedBy j) ∧
    (∀ (j : Nat) (th : Thread), s.threads[j]? = some th →
      (th.pc.inCrit = true ↔ o.mutex = .lockedBy j)) ∧
    (∀ (j : Nat) (th : Thread), s.threads[j]? = some th → th.pc ≠ .exited) ∧
    (∀ (j : Nat) (th : Thread) (k : Nat) (r : Int), s.threads[j]? = some th →
      th.pc = .loaded k r → r = s.val) ∧
    wrapInt (s.val + pending s.threads) = wrapInt total ∧
    INT_MIN ≤ s.val ∧ s.val ≤ INT_MAX ∧
    (owed s.threads : Int) ≤ o.ref ∧ o.ref ≤ INT_MAX

/-- The demo after both workers were spawned: the block at `1000` with count 3
(main's reference and one per worker), the payload 100, an incrementing and a
decrementing worker with 100000 iterations each. -/
def demo : Sys :=
  { world := sample 3, val := 100,
    threads := [{ dec := false, pc := .entry 100000 }, { dec := true, pc := .entry 100000 }] }

/-- A small system: the payload `v`, one incrementing and one decrementing
worker with `n` and `m` iterations. -/
def duo (v : Int) (n m : Nat) : Sys :=
  { world := sample 3, val := v,
    threads := [{ dec := false, pc := .entry n }, { dec := true, pc := .entry m }] }

/-- An interleaving of the two workers of `duo 100 2 1` in which each of them
is scheduled, waits and gets the mutex in turn, and both return. -/
def zigzag : List Tid :=
  [0, 1, 0, 1, 1, 0, 1, 0, 1, 1, 1, 0, 0, 0, 1, 0, 0, 0, 1, 0, 0, 1, 1, 0, 0, 1, 1, 0, 1, 0]

/-! ## What each call does to a live block with an unlocked mutex -/

theorem header_add (sz a : Nat) : header sz (a + sz) = .ok a := by
  simp [header]

theorem sample_heap (n : Int) :
    (sample n).heap 1000 = some { data := 1056, mutex := .unlocked, ref := n } := by
  simp [sample, World.store]

theorem sampleHeld_heap (n : Int) (u : Tid) :
    (sampleHeld n u).heap 1000 = some { data := 1056, mutex := .lockedBy u, ref := n } := by
  simp [sampleHeld, World.store]

theorem sampleFailing_heap (n : Int) (s : Int) :
    (sampleFailing n s).heap 1000 = some { data := 1056, mutex := .failing s, ref := n } := by
  simp [sampleFailing, World.store]

theorem ref_retain_eq (sz : Nat) (t : Tid) (a : Addr) (w : World) (o : obj_t)
    (hl : w.heap a = some o) (hm : o.mutex = .unlocked) :
    ref_retain sz t (a + sz) w = .ok
      { heap := Function.update w.heap a (some { o with ref := wrapInt (o.ref + 1) }),
        log := w.log ++ [.mutex_lock t a 0, .store_ref a (wrapInt (o.ref + 1)),
          .mutex_unlock t a 0] } := by
  simp [ref_retain, header_add, mutexOp, hl, hm, pthread_mutex_lock, pthread_mutex_unlock,
    World.load, World.store, World.emit, storeRef, bind, Except.bind, pure, Except.pure]

theorem ref_release_eq_keep (sz : Nat) (t : Tid) (a : Addr) (w : World) (o : obj_t)
    (hl : w.heap a = some o) (hm : o.mutex = .unlocked) (hn : o.ref ≠ 0) :
    ref_release sz t (a + sz) w = .ok
      { heap := Function.update w.heap a (some { o with ref := wrapInt (o.ref - 1) }),
        log := w.log ++ [.mutex_lock t a 0, .store_ref a (wrapInt (o.ref - 1)),
          .mutex_unlock t a 0] } := by
  simp [ref_release, header_add, mutexOp, hl, hm, hn, pthread_mutex_lock, pthread_mutex_unlock,
    World.load, World.store, World.emit, storeRef, bind, Except.bind, pure, Except.pure]

theorem ref_release_eq_free (sz : Nat) (t : Tid) (a : Addr) (w : World) (o : obj_t)
    (hl : w.heap a = some o) (hm : o.mutex = .unlocked) (hn : o.ref = 0) :
    ref_release sz t (a + sz) w = .ok
      { heap := Function.update w.heap a none,
        log := w.log ++ [.mutex_lock t a 0, .store_ref a (-1), .mutex_unlock t a 0,
          .mutex_destroy a 0, .free a] } := by
  simp [ref_release, header_add, mutexOp, hl, hm, hn, pthread_mutex_lock, pthread_mutex_unlock,
    World.load, World.store, World.emit, storeRef, bind, Except.bind, pure, Except.pure,
    pthread_mutex_destroy, free, wrapInt]

theorem ref_count_eq (sz : Nat) (t : Tid) (a : Addr) (w : World) (o : obj_t)
    (hl : w.heap a = some o) (hm : o.mutex = .unlocked) :
    ref_count sz t (a + sz) w = .ok (o.ref,
      { heap := w.heap,
        log := w.log ++ [.mutex_lock t a 0, .load_ref a o.ref, .mutex_unlock t a 0] }) := by
  simp [ref_count, header_add, mutexOp, hl, hm, pthread_mutex_lock, pthread_mutex_unlock,
    World.load, World.store, World.emit, loadRef, bind, Except.bind, pure, Except.pure]
  cases o
  simp_all

/-- A request that does not wrap reserves room for the control block. -/
theorem fits_of_le_SIZE_MAX (sz size : Nat) (hfit : sz + size ≤ SIZE_MAX) :
    wrapSize (sz + size) = sz + size ∧ sz ≤ wrapSize (sz + size) := by
  unfold SIZE_MAX at hfit
  unfold wrapSize
  omega

theorem ref_alloc_eq_ok (sz size : Nat) (res : Addr) (w : World) (hres : res ≠ 0)
    (hroom : sz ≤ wrapSize (sz + size)) :
    ref_alloc sz size res 0 w = .ok (res + sz,
      { heap := Function.update w.heap res
          (some { data := res + sz, mutex := .unlocked, ref := 1 }),
        log := w.log ++ [.calloc (wrapSize (sz + size)) res, .store_ref res 1,
          .mutex_init res 0, .store_data res (res + sz)] }) := by
  simp [ref_alloc, hres, hroom, calloc, mutexOp, pthread_mutex_init, World.store, World.emit,
    storeRef, storeData, bind, Except.bind, pure, Except.pure]

theorem ref_alloc_eq_init_fails (sz size : Nat) (res : Addr) (st : Int) (w : World)
    (hres : res ≠ 0) (hst : st ≠ 0) (hroom : sz ≤ wrapSize (sz + size)) :
    ref_alloc sz size res st w = .ok (0,
      { heap := Function.update w.heap res none,
        log := w.log ++ [.calloc (wrapSize (sz + size)) res, .store_ref res 1,
          .mutex_init res st, .free res] }) := by
  simp [ref_alloc, hres, hst, hroom, calloc, mutexOp, pthread_mutex_init, World.store,
    World.emit, storeRef, storeData, free, bind, Except.bind, pure, Except.pure]

theorem ref_alloc_eq_calloc_fails (sz size : Nat) (st : Int) (w : World) :
    ref_alloc sz size 0 st w = .ok (0,
      { heap := w.heap, log := w.log ++ [.calloc (wrapSize (sz + size)) 0] }) := by
  simp [ref_alloc, calloc, World.emit]

/-- When the block `calloc` returns is shorter than the control block, the
write `obj->ref = 1` of `ref_alloc` is out of bounds. -/
theorem ref_alloc_eq_out_of_bounds (sz size : Nat) (res : Addr) (st : Int) (w : World)
    (hres : res ≠ 0) (hshort : wrapSize (sz + size) < sz) :
    ref_alloc sz size res st w = .error .undefined := by
  have hroom : ¬ sz ≤ wrapSize (sz + size) := by omega
  simp [ref_alloc, hres, hroom, calloc, World.store, World.emit, storeRef, bind, Except.bind]

/-- While a thread holds the mutex, `ref_retain`, `ref_release` and
`ref_count` wait: none of them has a result in that state. -/
theorem calls_wait_for_held_mutex (sz : Nat) (t u : Tid) (a : Addr) (w : World) (o : obj_t)
    (hl : w.heap a = some o) (hm : o.mutex = .lockedBy u) :
    ref_retain sz t (a + sz) w = .error .blocks ∧
      ref_release sz t (a + sz) w = .error .blocks ∧
      ref_count sz t (a + sz) w = .error .blocks := by
  simp [ref_retain, ref_release, ref_count, header_add, mutexOp, hl, hm, pthread_mutex_lock,
    bind, Except.bind]

/-! ## Sequences of calls -/

theorem step_freed (sz : Nat) (a : Addr) (op : Op) (w : World) (hl : w.heap a = none) :
    step sz (a + sz) op w = .error .undefined := by
  cases op <;>
    simp [step, ref_retain, ref_release, header_add, mutexOp, hl, bind, Except.bind]

theorem run_freed (sz : Nat) (a : Addr) (ops : List Op) (w w2 : World)
    (hl : w.heap a = none) (hrun : run sz (a + sz) ops w = .ok w2) : w2.heap a = none := by
  cases ops with
  | nil =>
    simp only [run, Except.ok.injEq] at hrun
    rw [← hrun]; exact hl
  | cons op ops =>
    simp [run, step_freed sz a op w hl] at hrun

/-- Along a run on a live block the count is the unwrapped balance
`u + retains - releases` reduced to the `int` range, and that balance never
drops below zero while the block is allocated. -/
theorem run_count (sz : Nat) (a : Addr) (ops : List Op) :
    ∀ (w : World) (o : obj_t) (u : Int), w.heap a = some o → o.mutex = .unlocked →
      o.ref = wrapInt u → 0 ≤ u →
      ∀ (w2 : World) (o2 : obj_t), run sz (a + sz) ops w = .ok w2 → w2.heap a = some o2 →
        o2.mutex = .unlocked ∧ o2.data = o.data ∧
          o2.ref = wrapInt (u + retains ops - releases ops) ∧
          0 ≤ u + retains ops - releases ops := by
  induction ops with
  | nil =>
    intro w o u hl hm hr hu w2 o2 hrun hl2
    simp only [run, Except.ok.injEq] at hrun
    subst hrun
    rw [hl] at hl2
    cases hl2
    simp [retains, releases, hm, hr, hu]
  | cons op ops ih =>
    intro w o u hl hm hr hu w2 o2 hrun hl2
    cases op with
    | retain t =>
      simp only [run, step, ref_retain_eq sz t a w o hl hm] at hrun
      have h := ih _ { o with ref := wrapInt (o.ref + 1) } (u + 1) (by simp) hm
        (by simp only [hr]; unfold wrapInt; omega) (by omega) w2 o2 hrun hl2
      obtain ⟨h1, h2, h3, h4⟩ := h
      refine ⟨h1, h2, ?_, ?_⟩
      · rw [h3]; simp only [retains, releases]; push_cast; congr 1; ring
      · simp only [retains, releases]; push_cast; omega
    | release t =>
      by_cases hz : o.ref = 0
      · simp only [run, step, ref_release_eq_free sz t a w o hl hm hz] at hrun
        have := run_freed sz a ops _ w2 (by simp) hrun
        rw [this] at hl2
        cases hl2
      · simp only [run, step, ref_release_eq_keep sz t a w o hl hm hz] at hrun
        have hu1 : 1 ≤ u := by
          rcases Int.lt_or_le 0 u with h | h
          · omega
          · exfalso; apply hz; rw [hr]
            have : u = 0 := by omega
            subst this; rfl
        have h := ih _ { o with ref := wrapInt (o.ref - 1) } (u - 1) (by simp) hm
          (by simp only [hr]; unfold wrapInt; omega) (by omega) w2 o2 hrun hl2
        obtain ⟨h1, h2, h3, h4⟩ := h
        refine ⟨h1, h2, ?_, ?_⟩
        · rw [h3]; simp only [retains, releases]; push_cast; congr 1; ring
        · simp only [retains, releases]; push_cast; omega

theorem retains_replicate (t : Tid) (k : Nat) :
    retains (List.replicate k (Op.retain t)) = k ∧
      releases (List.replicate k (Op.retain t)) = 0 := by
  induction k with
  | zero => simp [retains, releases]
  | succ k ih => simp [List.replicate_succ, retains, releases, ih]

/-- A run of `k` retains on a live block returns and leaves the block live. -/
theorem run_retains (sz : Nat) (t : Tid) (a : Addr) (k : Nat) :
    ∀ (w : World) (o : obj_t), w.heap a = some o → o.mutex = .unlocked →
      ∃ w2 o2, run sz (a + sz) (List.replicate k (Op.retain t)) w = .ok w2 ∧
        w2.heap a = some o2 := by
  induction k with
  | zero =>
    intro w o hl hm
    exact ⟨w, o, rfl, hl⟩
  | succ k ih =>
    intro w o hl hm
    simp only [List.replicate_succ, run, step, ref_retain_eq sz t a w o hl hm]
    exact ih _ { o with ref := wrapInt (o.ref + 1) } (by simp) hm

/-- Under `noOverflow` the count of a live block stays between 0 and `INT_MAX`. -/
theorem run_nonneg (sz : Nat) (a : Addr) (ops : List Op) :
    ∀ (w : World) (o : obj_t), w.heap a = some o → o.mutex = .unlocked →
      0 ≤ o.ref → o.ref ≤ INT_MAX → noOverflow sz a ops w = true →
      ∀ (w2 : World) (o2 : obj_t), run sz (a + sz) ops w = .ok w2 → w2.heap a = some o2 →
        o2.mutex = .unlocked ∧ 0 ≤ o2.ref ∧ o2.ref ≤ INT_MAX := by
  induction ops with
  | nil =>
    intro w o hl hm h0 h1 _ w2 o2 hrun hl2
    simp only [run, Except.ok.injEq] at hrun
    subst hrun
    rw [hl] at hl2
    cases hl2
    exact ⟨hm, h0, h1⟩
  | cons op ops ih =>
    intro w o hl hm h0 h1 hsafe w2 o2 hrun hl2
    cases op with
    | retain t =>
      simp only [noOverflow, hl, step, ref_retain_eq sz t a w o hl hm, Bool.and_eq_true,
        decide_eq_true_eq] at hsafe
      simp only [run, step, ref_retain_eq sz t a w o hl hm] at hrun
      have hlt := hsafe.1
      have hw : wrapInt (o.ref + 1) = o.ref + 1 := by
        unfold INT_MAX at hlt
        unfold wrapInt
        omega
      exact ih _ { o with ref := wrapInt (o.ref + 1) } (by simp) hm
        (by simp only [hw]; omega) (by simp only [hw]; omega) hsafe.2 w2 o2 hrun hl2
    | release t =>
      by_cases hz : o.ref = 0
      · simp only [run, step, ref_release_eq_free sz t a w o hl hm hz] at hrun
        have := run_freed sz a ops _ w2 (by simp) hrun
        rw [this] at hl2
        cases hl2
      · simp only [noOverflow, hl, step, ref_release_eq_keep sz t a w o hl hm hz,
          Bool.and_eq_true, decide_eq_true_eq] at hsafe
        simp only [run, step, ref_release_eq_keep sz t a w o hl hm hz] at hrun
        have hw : wrapInt (o.ref - 1) = o.ref - 1 := by
          unfold INT_MAX at h1
          unfold wrapInt
          omega
        exact ih _ { o with ref := wrapInt (o.ref - 1) } (by simp) hm
          (by simp only [hw]; omega) (by simp only [hw]; omega) hsafe.2 w2 o2 hrun hl2

/-- A freshly allocated block: what a successful `ref_alloc` leaves behind. -/
theorem ref_alloc_fresh (sz size : Nat) (res p : Addr) (w w1 : World)
    (halloc : ref_alloc sz size res 0 w = .ok (p, w1)) (hp : p ≠ 0) :
    p = res + sz ∧ w1.heap res = some { data := res + sz, mutex := .unlocked, ref := 1 } := by
  by_cases hres : res = 0
  · subst hres
    rw [ref_alloc_eq_calloc_fails] at halloc
    simp only [Except.ok.injEq, Prod.mk.injEq] at halloc
    exact absurd halloc.1.symm hp
  · by_cases hroom : sz ≤ wrapSize (sz + size)
    · rw [ref_alloc_eq_ok sz size res w hres hroom] at halloc
      simp only [Except.ok.injEq, Prod.mk.injEq] at halloc
      obtain ⟨h1, h2⟩ := halloc
      subst h1 h2
      simp
    · rw [ref_alloc_eq_out_of_bounds sz size res 0 w hres (by omega)] at halloc
      cases halloc

theorem ref_pthread_create_eq_ok (sz : Nat) (t : Tid) (routine : Nat) (a : Addr) (w : World)
    (o : obj_t) (hl : w.heap a = some o) (hm : o.mutex = .unlocked) :
    ref_pthread_create sz t routine (a + sz) 0 w = .ok (0,
      { heap := Function.update w.heap a (some { o with ref := wrapInt (o.ref + 1) }),
        log := w.log ++ [.mutex_lock t a 0, .store_ref a (wrapInt (o.ref + 1)),
          .mutex_unlock t a 0, .thread_create t routine (a + sz) 0] }) := by
  simp [ref_pthread_create, ref_retain_eq sz t a w o hl hm, pthread_create, World.emit, bind,
    Except.bind, pure, Except.pure]

theorem ref_pthread_create_eq_fail (sz : Nat) (t : Tid) (routine : Nat) (a : Addr) (e : Int)
    (w : World) (o : obj_t) (hl : w.heap a = some o) (hm : o.mutex = .unlocked)
    (he : e ≠ 0) (hn : wrapInt (o.ref + 1) ≠ 0) :
    ref_pthread_create sz t routine (a + sz) e w = .ok (e,
      { heap := Function.update w.heap a
          (some { o with ref := wrapInt (wrapInt (o.ref + 1) - 1) }),
        log := w.log ++ [.mutex_lock t a 0, .store_ref a (wrapInt (o.ref + 1)),
          .mutex_unlock t a 0, .thread_create t routine (a + sz) e, .mutex_lock t a 0,
          .store_ref a (wrapInt (wrapInt (o.ref + 1) - 1)), .mutex_unlock t a 0] }) := by
  have hrel := ref_release_eq_keep sz t a
    { heap := Function.update w.heap a (some { o with ref := wrapInt (o.ref + 1) }),
      log := w.log ++ [.mutex_lock t a 0, .store_ref a (wrapInt (o.ref + 1)),
        .mutex_unlock t a 0, .thread_create t routine (a + sz) e] }
    { o with ref := wrapInt (o.ref + 1) } (by simp) hm hn
  simp [ref_pthread_create, ref_retain_eq sz t a w o hl hm, pthread_create, World.emit, bind,
    Except.bind, pure, Except.pure, he, hrel]

theorem ref_pthread_create_eq_fail_free (sz : Nat) (t : Tid) (routine : Nat) (a : Addr)
    (e : Int) (w : World) (o : obj_t) (hl : w.heap a = some o) (hm : o.mutex = .unlocked)
    (he : e ≠ 0) (hn : wrapInt (o.ref + 1) = 0) :
    ref_pthread_create sz t routine (a + sz) e w = .ok (e,
      { heap := Function.update w.heap a none,
        log := w.log ++ [.mutex_lock t a 0, .store_ref a (wrapInt (o.ref + 1)),
          .mutex_unlock t a 0, .thread_create t routine (a + sz) e, .mutex_lock t a 0,
          .store_ref a (-1), .mutex_unlock t a 0, .mutex_destroy a 0, .free a] }) := by
  have hrel := ref_release_eq_free sz t a
    { heap := Function.update w.heap a (some { o with ref := wrapInt (o.ref + 1) }),
      log := w.log ++ [.mutex_lock t a 0, .store_ref a (wrapInt (o.ref + 1)),
        .mutex_unlock t a 0, .thread_create t routine (a + sz) e] }
    { o with ref := wrapInt (o.ref + 1) } (by simp) hm hn
  simp [ref_pthread_create, ref_retain_eq sz t a w o hl hm, pthread_create, World.emit, bind,
    Except.bind, pure, Except.pure, he, hrel]

/-! ## Interleavings of the workers -/

theorem pending_set (l : List Thread) :
    ∀ (i : Nat) (th x : Thread), l[i]? = some th →
      pending (l.set i x) = pending l - th.delta + x.delta := by
  induction l with
  | nil => intro i th x h; simp at h
  | cons y ys ih =>
    intro i th x h
    cases i with
    | zero =>
      simp only [List.getElem?_cons_zero, Option.some.injEq] at h
      subst h
      simp only [List.set_cons_zero, pending]
      omega
    | succ n =>
      simp only [List.getElem?_cons_succ] at h
      simp only [List.set_cons_succ, pending, ih n th x h]
      omega

theorem owed_set (l : List Thread) :
    ∀ (i : Nat) (th x : Thread), l[i]? = some th →
      owed (l.set i x) + th.pc.owes = owed l + x.pc.owes := by
  induction l with
  | nil => intro i th x h; simp at h
  | cons y ys ih =>
    intro i th x h
    cases i with
    | zero =>
      simp only [List.getElem?_cons_zero, Option.some.injEq] at h
      subst h
      simp only [List.set_cons_zero, owed]
      omega
    | succ n =>
      simp only [List.getElem?_cons_succ] at h
      have := ih n th x h
      simp only [List.set_cons_succ, owed]
      omega

theorem stepsLeft_set (l : List Thread) :
    ∀ (i : Nat) (th x : Thread), l[i]? = some th → x.pc.left + 1 = th.pc.left →
      stepsLeft (l.set i x) + 1 = stepsLeft l := by
  induction l with
  | nil => intro i th x h; simp at h
  | cons y ys ih =>
    intro i th x h hx
    cases i with
    | zero =>
      simp only [List.getElem?_cons_zero, Option.some.injEq] at h
      subst h
      simp only [List.set_cons_zero, stepsLeft]
      omega
    | succ n =>
      simp only [List.getElem?_cons_succ] at h
      have := ih n th x h hx
      simp only [List.set_cons_succ, stepsLeft]
      omega

theorem lt_length_of_getElem? (l : List Thread) (i : Nat) (th : Thread)
    (h : l[i]? = some th) : i < l.length := by
  by_contra hc
  rw [List.getElem?_eq_none (by omega)] at h
  cases h

theorem owes_le_owed (l : List Thread) :
    ∀ (i : Nat) (th : Thread), l[i]? = some th → th.pc.owes ≤ owed l := by
  induction l with
  | nil => intro i th h; simp at h
  | cons y ys ih =>
    intro i th h
    cases i with
    | zero =>
      simp only [List.getElem?_cons_zero, Option.some.injEq] at h
      subst h
      simp only [owed]
      omega
    | succ n =>
      simp only [List.getElem?_cons_succ] at h
      have := ih n th h
      simp only [owed]
      omega

theorem getElem?_set_self_of (l : List Thread) (i : Nat) (th x : Thread)
    (h : l[i]? = some th) : (l.set i x)[i]? = some x := by
  have hi : i < l.length := by
    by_contra hc
    rw [List.getElem?_eq_none (by omega)] at h
    cases h
  rw [List.getElem?_set]
  simp [hi]

/-- A step of worker `i` that respects the conditions below keeps `Inv`. -/
theorem inv_update (a : Addr) (total : Int) (s : Sys) (i : Nat) (th x : Thread)
    (o o1 : obj_t) (w1 : World) (v1 : Int)
    (hinv : Inv a total s) (hl : s.world.heap a = some o) (hth : s.threads[i]? = some th)
    (hl1 : w1.heap a = some o1)
    (hmx : o1.mutex = .unlocked ∨ ∃ j, j < s.threads.length ∧ o1.mutex = .lockedBy j)
    (hown : x.pc.inCrit = true ↔ o1.mutex = .lockedBy i) (hex : x.pc ≠ .exited)
    (hoth : ∀ j, j ≠ i → (o1.mutex = .lockedBy j ↔ o.mutex = .lockedBy j))
    (hld : ∀ k r, x.pc = .loaded k r → r = v1)
    (hval : v1 = s.val ∨ o.mutex = .lockedBy i)
    (hsum : wrapInt (v1 + x.delta) = wrapInt (s.val + th.delta))
    (hr1 : INT_MIN ≤ v1) (hr2 : v1 ≤ INT_MAX)
    (hcnt : o.ref + (x.pc.owes : Int) ≤ o1.ref + (th.pc.owes : Int))
    (hmax : o1.ref ≤ INT_MAX) :
    Inv a total { world := w1, val := v1, threads := s.threads.set i x } := by
  obtain ⟨o0, h0, _, hcrit, hnex, hload, hpend, _, _, howed, _⟩ := hinv
  rw [hl] at h0
  cases h0
  refine ⟨o1, hl1, ?_, ?_, ?_, ?_, ?_, hr1, hr2, ?_, hmax⟩
  · simpa [List.length_set] using hmx
  · intro j tj hj
    by_cases hji : j = i
    · subst hji
      rw [getElem?_set_self_of _ _ th x hth] at hj
      cases hj
      exact hown
    · rw [List.getElem?_set_ne (Ne.symm hji)] at hj
      rw [hcrit j tj hj]
      exact (hoth j hji).symm
  · intro j tj hj
    by_cases hji : j = i
    · subst hji
      rw [getElem?_set_self_of _ _ th x hth] at hj
      cases hj
      exact hex
    · rw [List.getElem?_set_ne (Ne.symm hji)] at hj
      exact hnex j tj hj
  · intro j tj k r hj hpc
    by_cases hji : j = i
    · subst hji
      rw [getElem?_set_self_of _ _ th x hth] at hj
      cases hj
      exact hld k r hpc
    · rw [List.getElem?_set_ne (Ne.symm hji)] at hj
      have hr := hload j tj k r hj hpc
      rcases hval with hv | hv
      · show r = v1
        rw [hv]; exact hr
      · exfalso
        have hc : tj.pc.inCrit = true := by rw [hpc]; rfl
        have := (hcrit j tj hj).mp hc
        rw [hv] at this
        cases this
        exact hji rfl
  · show wrapInt (v1 + pending (s.threads.set i x)) = wrapInt total
    rw [pending_set _ i th x hth]
    unfold wrapInt at hsum hpend ⊢
    omega
  · show (owed (s.threads.set i x) : Int) ≤ o1.ref
    have := owed_set _ i th x hth
    omega

theorem lock_eq_ok (sz : Nat) (t : Tid) (a : Addr) (w : World) (o : obj_t)
    (hl : w.heap a = some o) (hm : o.mutex = .unlocked) :
    ref_pthread_mutex_lock sz t (a + sz) w = .ok (0,
      { heap := Function.update w.heap a (some { o with mutex := .lockedBy t }),
        log := w.log ++ [.mutex_lock t a 0] }) := by
  simp [ref_pthread_mutex_lock, header_add, mutexOp, hl, hm, pthread_mutex_lock, World.store,
    World.emit, bind, Except.bind]

theorem lock_eq_blocks (sz : Nat) (t u : Tid) (a : Addr) (w : World) (o : obj_t)
    (hl : w.heap a = some o) (hm : o.mutex = .lockedBy u) :
    ref_pthread_mutex_lock sz t (a + sz) w = .error .blocks := by
  simp [ref_pthread_mutex_lock, header_add, mutexOp, hl, hm, pthread_mutex_lock, bind,
    Except.bind]

theorem unlock_eq_ok (sz : Nat) (t : Tid) (a : Addr) (w : World) (o : obj_t)
    (hl : w.heap a = some o) (hm : o.mutex = .lockedBy t) :
    ref_pthread_mutex_unlock sz t (a + sz) w = .ok (0,
      { heap := Function.update w.heap a (some { o with mutex := .unlocked }),
        log := w.log ++ [.mutex_unlock t a 0] }) := by
  simp [ref_pthread_mutex_unlock, header_add, mutexOp, hl, hm, pthread_mutex_unlock,
    World.store, World.emit, bind, Except.bind]

theorem payload_eq (sz : Nat) (a : Addr) (w : World) (o : obj_t) (hl : w.heap a = some o) :
    payload sz (a + sz) w = .ok o := by
  simp [payload, header_add, World.load, hl, bind, Except.bind]

theorem set_self_of (l : List Thread) :
    ∀ (i : Nat) (th : Thread), l[i]? = some th → l.set i th = l := by
  induction l with
  | nil => intro i th h; simp at h
  | cons y ys ih =>
    intro i th h
    cases i with
    | zero =>
      simp only [List.getElem?_cons_zero, Option.some.injEq] at h
      subst h
      rfl
    | succ n =>
      simp only [List.getElem?_cons_succ] at h
      simp only [List.set_cons_succ, ih n th h]

theorem wrapInt_range (x : Int) : INT_MIN ≤ wrapInt x ∧ wrapInt x ≤ INT_MAX := by
  unfold INT_MIN INT_MAX wrapInt
  omega

/-- Whichever worker the scheduler picks, the step is defined and keeps `Inv`;
a worker that holds the mutex, or finds it free and has steps left, takes one
of its steps. -/
theorem sysStep_inv (sz : Nat) (a : Addr) (total : Int) (i : Tid) (s : Sys)
    (hinv : Inv a total s) :
    ∃ s1, sysStep sz (a + sz) i s = .ok s1 ∧ Inv a total s1 ∧
      (∀ th o, s.threads[i]? = some th → s.world.heap a = some o →
        (th.pc.inCrit = true ∨ (o.mutex = .unlocked ∧ 0 < th.pc.left)) →
        stepsLeft s1.threads + 1 = stepsLeft s.threads) := by
  cases hth : s.threads[i]? with
  | none => exact ⟨s, by simp [sysStep, hth], hinv, fun _ _ h => by cases h⟩
  | some th =>
    obtain ⟨o, hl, hmx, hcrit, hnex, hload, hpend, hv1, hv2, howed, hmax⟩ := id hinv
    have hme := hcrit i th hth
    have howe := owes_le_owed _ i th hth
    have hi := lt_length_of_getElem? _ i th hth
    have hne := hnex i th hth
    have hwait : ∀ (pc : Pc) (j : Tid), pc.inCrit = false → o.mutex = .lockedBy j →
        ∀ (th1 : Thread) (o1 : obj_t), some (Thread.mk th.dec pc) = some th1 →
          s.world.heap a = some o1 →
          (th1.pc.inCrit = true ∨ (o1.mutex = .unlocked ∧ 0 < th1.pc.left)) →
          stepsLeft s.threads + 1 = stepsLeft s.threads := by
      intro pc j hc hj th1 o1 h1 h2 h3
      cases h1
      rw [hl] at h2
      cases h2
      rcases h3 with h | ⟨h, _⟩
      · rw [hc] at h; cases h
      · rw [hj] at h; cases h
    obtain ⟨dec, pc⟩ := th
    cases pc with
    | entry k =>
      rcases hmx with hu | ⟨j, _, hj⟩
      · refine ⟨_, (by
          simp [sysStep, hth, threadStep, ref_count_eq sz i a _ o hl hu, bind, Except.bind,
            pure, Except.pure]
          rfl), ?_, fun _ _ _ _ _ =>
            stepsLeft_set _ i _ ⟨dec, .top k⟩ hth (by simp only [Pc.left])⟩
        exact inv_update a total s i _ ⟨dec, .top k⟩ o o _ s.val hinv hl hth hl (Or.inl hu)
          (by simp [Pc.inCrit, hu]) (by simp) (fun _ _ => Iff.rfl) (by intro k r h; cases h)
          (Or.inl rfl) (by simp [Thread.delta, Pc.todo]) hv1 hv2 (by simp [Pc.owes]) hmax
      · exact ⟨s, by simp [sysStep, hth, threadStep,
          (calls_wait_for_held_mutex sz i j a _ o hl hj).2.2, bind, Except.bind], hinv,
          hwait _ j rfl hj⟩
    | top k =>
      cases k with
      | zero =>
        rcases hmx with hu | ⟨j, _, hj⟩
        · have hpos : o.ref ≠ 0 := by
            simp only [Pc.owes] at howe
            omega
          have hw : wrapInt (o.ref - 1) = o.ref - 1 := by
            simp only [Pc.owes] at howe
            unfold INT_MAX at hmax
            unfold wrapInt
            omega
          refine ⟨_, (by
            simp [sysStep, hth, threadStep, ref_release_eq_keep sz i a _ o hl hu hpos, bind,
              Except.bind, pure, Except.pure]
            rfl), ?_, fun _ _ _ _ _ =>
              stepsLeft_set _ i _ ⟨dec, .report⟩ hth (by simp only [Pc.left])⟩
          exact inv_update a total s i _ ⟨dec, .report⟩ o { o with ref := wrapInt (o.ref - 1) }
            _ s.val hinv hl hth (by simp) (Or.inl hu) (by simp [Pc.inCrit, hu]) (by simp)
            (fun _ _ => Iff.rfl) (by intro k r h; cases h) (Or.inl rfl)
            (by simp [Thread.delta, Pc.todo]) hv1 hv2 (by simp [Pc.owes, hw])
            (by simp only [hw]; omega)
        · exact ⟨s, by simp [sysStep, hth, threadStep,
            (calls_wait_for_held_mutex sz i j a _ o hl hj).2.1, bind, Except.bind], hinv,
            hwait _ j rfl hj⟩
      | succ k =>
        rcases hmx with hu | ⟨j, _, hj⟩
        · refine ⟨_, (by
            simp [sysStep, hth, threadStep, lock_eq_ok sz i a _ o hl hu, bind, Except.bind,
              pure, Except.pure]
            rfl), ?_, fun _ _ _ _ _ =>
              stepsLeft_set _ i _ ⟨dec, .locked k⟩ hth (by simp only [Pc.left]; omega)⟩
          refine inv_update a total s i _ ⟨dec, .locked k⟩ o { o with mutex := .lockedBy i }
            _ s.val hinv hl hth (by simp) (Or.inr ⟨i, hi, rfl⟩) (by simp [Pc.inCrit])
            (by simp) ?_ (by intro k r h; cases h) (Or.inl rfl)
            (by simp [Thread.delta, Pc.todo]) hv1 hv2 (by simp [Pc.owes]) hmax
          intro j hji
          simp [hu, hji, Ne.symm hji]
        · exact ⟨s, by simp [sysStep, hth, threadStep, lock_eq_blocks sz i j a _ o hl hj, bind,
            Except.bind], hinv, hwait _ j rfl hj⟩
    | locked k =>
      have hown : o.mutex = .lockedBy i := hme.mp rfl
      refine ⟨_, (by
        simp [sysStep, hth, threadStep, payload_eq sz a _ o hl, bind, Except.bind, pure,
          Except.pure]
        rfl), ?_, fun _ _ _ _ _ =>
          stepsLeft_set _ i _ ⟨dec, .loaded k s.val⟩ hth (by simp only [Pc.left])⟩
      exact inv_update a total s i _ ⟨dec, .loaded k s.val⟩ o o _ s.val hinv hl hth hl hmx
        (by simp [Pc.inCrit, hown]) (by simp) (fun _ _ => Iff.rfl)
        (by intro k r h; cases h; rfl) (Or.inl rfl)
        (by simp [Thread.delta, Pc.todo]) hv1 hv2 (by simp [Pc.owes]) hmax
    | loaded k r =>
      have hown : o.mutex = .lockedBy i := hme.mp rfl
      have hr : r = s.val := hload i _ k r hth rfl
      refine ⟨_, (by
        simp [sysStep, hth, threadStep, payload_eq sz a _ o hl, bind, Except.bind, pure,
          Except.pure]
        rfl), ?_, fun _ _ _ _ _ =>
          stepsLeft_set _ i _ ⟨dec, .stored k⟩ hth (by simp only [Pc.left])⟩
      refine inv_update a total s i _ ⟨dec, .stored k⟩ o o _
        (wrapInt (if dec = true then r - 1 else r + 1)) hinv hl hth hl hmx
        (by simp [Pc.inCrit, hown]) (by simp) (fun _ _ => Iff.rfl)
        (by intro k r h; cases h) (Or.inr hown) ?_ (wrapInt_range _).1 (wrapInt_range _).2
        (by simp [Pc.owes]) hmax
      subst hr
      cases dec <;> simp [Thread.delta, Pc.todo] <;> unfold wrapInt <;> omega
    | stored k =>
      have hown : o.mutex = .lockedBy i := hme.mp rfl
      refine ⟨_, (by
        simp [sysStep, hth, threadStep, unlock_eq_ok sz i a _ o hl hown, bind, Except.bind,
          pure, Except.pure]
        rfl), ?_, fun _ _ _ _ _ =>
          stepsLeft_set _ i _ ⟨dec, .top k⟩ hth (by simp only [Pc.left])⟩
      refine inv_update a total s i _ ⟨dec, .top k⟩ o { o with mutex := .unlocked }
        _ s.val hinv hl hth (by simp) (Or.inl rfl) (by simp [Pc.inCrit]) (by simp)
        ?_ (by intro k r h; cases h) (Or.inl rfl)
        (by simp [Thread.delta, Pc.todo]) hv1 hv2 (by simp [Pc.owes]) hmax
      intro j hji
      simp [hown, hji, Ne.symm hji]
    | report =>
      rcases hmx with hu | ⟨j, _, hj⟩
      · refine ⟨_, (by
          simp [sysStep, hth, threadStep, ref_count_eq sz i a _ o hl hu, bind, Except.bind,
            pure, Except.pure]
          rfl), ?_, fun _ _ _ _ _ =>
            stepsLeft_set _ i _ ⟨dec, .done⟩ hth (by simp only [Pc.left])⟩
        exact inv_update a total s i _ ⟨dec, .done⟩ o o _ s.val hinv hl hth hl (Or.inl hu)
          (by simp [Pc.inCrit, hu]) (by simp) (fun _ _ => Iff.rfl) (by intro k r h; cases h)
          (Or.inl rfl) (by simp [Thread.delta, Pc.todo]) hv1 hv2 (by simp [Pc.owes]) hmax
      · exact ⟨s, by simp [sysStep, hth, threadStep,
          (calls_wait_for_held_mutex sz i j a _ o hl hj).2.2, bind, Except.bind], hinv,
          hwait _ j rfl hj⟩
    | done =>
      refine ⟨_, (by
        simp [sysStep, hth, threadStep, pure, Except.pure]
        rfl), ?_, ?_⟩
      · have hset : s.threads.set i ⟨dec, .done⟩ = s.threads := set_self_of _ i _ hth
        show Inv a total
          { world := s.world, val := s.val, threads := s.threads.set i ⟨dec, .done⟩ }
        rw [hset]
        exact hinv
      · intro th1 o1 h1 _ h3
        cases h1
        rcases h3 with h | ⟨_, h⟩
        · cases h
        · simp [Pc.left] at h
    | exited => exact absurd rfl hne

/-- Every interleaving is defined and keeps `Inv`. -/
theorem exec_inv (sz : Nat) (a : Addr) (total : Int) (sched : List Tid) :
    ∀ s, Inv a total s → ∃ s1, exec sz (a + sz) sched s = .ok s1 ∧ Inv a total s1 := by
  induction sched with
  | nil => intro s h; exact ⟨s, rfl, h⟩
  | cons i rest ih =>
    intro s h
    obtain ⟨s1, h1, hinv1, _⟩ := sysStep_inv sz a total i s h
    obtain ⟨s2, h2, hinv2⟩ := ih s1 hinv1
    exact ⟨s2, by simp only [exec, h1, h2], hinv2⟩

theorem exists_left_pos (l : List Thread) (h : 0 < stepsLeft l) :
    ∃ (i : Nat) (th : Thread), l[i]? = some th ∧ 0 < th.pc.left := by
  induction l with
  | nil => simp [stepsLeft] at h
  | cons y ys ih =>
    by_cases hy : 0 < y.pc.left
    · exact ⟨0, y, List.getElem?_cons_zero, hy⟩
    · have : 0 < stepsLeft ys := by
        simp only [stepsLeft] at h
        omega
      obtain ⟨i, th, hi, hp⟩ := ih this
      exact ⟨i + 1, th, by rw [List.getElem?_cons_succ]; exact hi, hp⟩

/-- From every reachable state some interleaving brings all workers to the
end of their steps. -/
theorem exec_complete (sz : Nat) (a : Addr) (total : Int) :
    ∀ (n : Nat) (s : Sys), Inv a total s → stepsLeft s.threads = n →
      ∃ sched s1, exec sz (a + sz) sched s = .ok s1 ∧ Inv a total s1 ∧
        stepsLeft s1.threads = 0 := by
  intro n
  induction n with
  | zero => intro s h h0; exact ⟨[], s, rfl, h, h0⟩
  | succ n ih =>
    intro s h hn
    obtain ⟨o, hl, hmx, hcrit, _⟩ := id h
    have hstep : ∃ i s1, sysStep sz (a + sz) i s = .ok s1 ∧ Inv a total s1 ∧
        stepsLeft s1.threads + 1 = stepsLeft s.threads := by
      rcases hmx with hu | ⟨j, hj, hjm⟩
      · obtain ⟨i, th, hi, hp⟩ := exists_left_pos s.threads (by omega)
        obtain ⟨s1, h1, hinv1, hdec⟩ := sysStep_inv sz a total i s h
        exact ⟨i, s1, h1, hinv1, hdec th o hi hl (Or.inr ⟨hu, hp⟩)⟩
      · have hth : s.threads[j]? = some s.threads[j] := List.getElem?_eq_getElem hj
        obtain ⟨s1, h1, hinv1, hdec⟩ := sysStep_inv sz a total j s h
        exact ⟨j, s1, h1, hinv1, hdec _ o hth hl (Or.inl ((hcrit j _ hth).mpr hjm))⟩
    obtain ⟨i, s1, h1, hinv1, hdec⟩ := hstep
    obtain ⟨sched, s2, h2, hinv2, hz⟩ := ih s1 hinv1 (by omega)
    exact ⟨i :: sched, s2, by simp only [exec, h1, h2], hinv2, hz⟩

theorem allDone_of_stepsLeft (l : List Thread) :
    (∀ (j : Nat) (th : Thread), l[j]? = some th → th.pc ≠ .exited) → stepsLeft l = 0 →
      allDone l = true := by
  induction l with
  | nil => intro _ _; rfl
  | cons y ys ih =>
    intro hne h0
    simp only [stepsLeft] at h0
    have hy : y.pc = .done := by
      have h1 : y.pc.left = 0 := by omega
      have h2 := hne 0 y List.getElem?_cons_zero
      cases hpc : y.pc <;> simp [hpc, Pc.left] at h1 h2 ⊢
    have hys := ih (fun j th hj => hne (j + 1) th
      (by rw [List.getElem?_cons_succ]; exact hj)) (by omega)
    simp only [allDone, List.all_cons, hy, decide_True, Bool.true_and] at hys ⊢
    exact hys

theorem pending_of_allDone (l : List Thread) (h : allDone l = true) : pending l = 0 := by
  induction l with
  | nil => rfl
  | cons y ys ih =>
    simp only [allDone, List.all_cons, Bool.and_eq_true, decide_eq_true_eq] at h
    have hys : allDone ys = true := h.2
    simp only [pending, ih hys, Thread.delta, h.1, Pc.todo]
    simp

theorem pending_eq (l : List Thread) :
    pending l = (increments l : Int) - (decrements l : Int) := by
  induction l with
  | nil => rfl
  | cons y ys ih =>
    simp only [pending, increments, decrements, ih, Thread.delta]
    cases y.dec <;> simp <;> omega

theorem owed_le_length (l : List Thread) : owed l ≤ l.length := by
  induction l with
  | nil => exact Nat.le_refl _
  | cons y ys ih =>
    have : y.pc.owes ≤ 1 := by cases y.pc <;> simp [Pc.owes]
    simp only [owed, List.length_cons]
    omega

theorem entry_of_allAtEntry (l : List Thread) (h : allAtEntry l = true) :
    ∀ (j : Nat) (th : Thread), l[j]? = some th → ∃ k, th.pc = .entry k := by
  induction l with
  | nil => intro j th hj; simp at hj
  | cons y ys ih =>
    intro j th hj
    simp only [allAtEntry, List.all_cons, Bool.and_eq_true] at h
    cases j with
    | zero =>
      simp only [List.getElem?_cons_zero, Option.some.injEq] at hj
      subst hj
      cases hpc : y.pc <;> simp [hpc] at h
      exact ⟨_, rfl⟩
    | succ n =>
      simp only [List.getElem?_cons_succ] at hj
      exact ih h.2 n th hj

/-- The state in which the workers start satisfies `Inv`. -/
theorem inv_init (a : Addr) (s : Sys) (o : obj_t) (hl : s.world.heap a = some o)
    (hm : o.mutex = .unlocked) (hcnt : (s.threads.length : Int) ≤ o.ref)
    (hmax : o.ref ≤ INT_MAX) (hv1 : INT_MIN ≤ s.val) (hv2 : s.val ≤ INT_MAX)
    (hentry : allAtEntry s.threads = true) :
    Inv a (s.val + pending s.threads) s := by
  have he := entry_of_allAtEntry _ hentry
  refine ⟨o, hl, Or.inl hm, ?_, ?_, ?_, rfl, hv1, hv2, ?_, hmax⟩
  · intro j th hj
    obtain ⟨k, hk⟩ := he j th hj
    simp [hk, Pc.inCrit, hm]
  · intro j th hj
    obtain ⟨k, hk⟩ := he j th hj
    simp [hk]
  · intro j th k r hj hpc
    obtain ⟨k1, hk⟩ := he j th hj
    rw [hk] at hpc
    cases hpc
  · have := owed_le_length s.threads
    omega

/-- Mutual exclusion, the final value and the existence of complete
interleavings for workers that start on a live block with a free mutex. -/
theorem workers_core (sz : Nat) (a : Addr) (s0 : Sys) (o : obj_t)
    (hl : s0.world.heap a = some o) (hm : o.mutex = .unlocked)
    (hcnt : (s0.threads.length : Int) ≤ o.ref) (hmax : o.ref ≤ INT_MAX)
    (hv1 : INT_MIN ≤ s0.val) (hv2 : s0.val ≤ INT_MAX)
    (hentry : allAtEntry s0.threads = true) :
    (∀ sched, ∃ s, exec sz (a + sz) sched s0 = .ok s ∧
      (∀ (j1 j2 : Nat) (t1 t2 : Thread), s.threads[j1]? = some t1 →
        s.threads[j2]? = some t2 → t1.pc.inCrit = true → t2.pc.inCrit = true → j1 = j2) ∧
      (allDone s.threads = true →
        s.val = wrapInt (s0.val + (increments s0.threads : Int)
          - (decrements s0.threads : Int)))) ∧
    (∃ sched s, exec sz (a + sz) sched s0 = .ok s ∧ allDone s.threads = true) := by
  have h0 := inv_init a s0 o hl hm hcnt hmax hv1 hv2 hentry
  constructor
  · intro sched
    obtain ⟨s, hs, hinv⟩ := exec_inv sz a _ sched s0 h0
    obtain ⟨o1, _, _, hcrit, _, _, hpend, hr1, hr2, _, _⟩ := hinv
    refine ⟨s, hs, ?_, ?_⟩
    · intro j1 j2 t1 t2 h1 h2 c1 c2
      have e1 := (hcrit j1 t1 h1).mp c1
      have e2 := (hcrit j2 t2 h2).mp c2
      rw [e1] at e2
      cases e2
      rfl
    · intro hd
      rw [pending_of_allDone _ hd, pending_eq] at hpend
      unfold INT_MIN at hr1
      unfold INT_MAX at hr2
      unfold wrapInt at hpend ⊢
      omega
  · obtain ⟨sched, s, hs, hinv, hz⟩ := exec_complete sz a _ _ s0 h0 rfl
    obtain ⟨_, _, _, _, hnex, _⟩ := hinv
    exact ⟨sched, s, hs, allDone_of_stepsLeft _ hnex hz⟩

/-! ## The claims -/

/-- C1 (what the code does instead): for every live block whose mutex is free
and whose count `n` is at least 1, `ref_release` returns, leaves the block
allocated with the count `n - 1` and frees nothing, also when `n = 1` and the
decrement produces zero. -/
theorem ref_release_keeps_positive (sz : Nat) (t : Tid) (a : Addr) (w : World) (o : obj_t)
    (hl : w.heap a = some o) (hm : o.mutex = .unlocked) (h1 : 1 ≤ o.ref)
    (h2 : o.ref ≤ INT_MAX) :
    ∃ w1, ref_release sz t (a + sz) w = .ok w1 ∧
      w1.heap a = some { o with ref := o.ref - 1 } ∧
      w1.log = w.log ++ [.mutex_lock t a 0, .store_ref a (o.ref - 1), .mutex_unlock t a 0] ∧
      frees a w1.log = frees a w.log := by
  have hw : wrapInt (o.ref - 1) = o.ref - 1 := by
    unfold INT_MAX at h2
    unfold wrapInt
    omega
  refine ⟨_, ref_release_eq_keep sz t a w o hl hm (by omega), ?_, ?_, ?_⟩
  · simp [hw]
  · simp [hw]
  · simp [frees, List.count_append, List.count_cons]

/-- C1, at the count 1: the release that brings the count of the block at
`1000` from 1 to 0 leaves the block allocated. -/
theorem ref_release_keeps_positive_witness :
    ∃ w1, ref_release 56 7 (1000 + 56) (sample 1) = .ok w1 ∧
      w1.heap 1000 = some { data := 1056, mutex := .unlocked, ref := 1 - 1 } ∧
      w1.log = (sample 1).log ++
        [.mutex_lock 7 1000 0, .store_ref 1000 (1 - 1), .mutex_unlock 7 1000 0] ∧
      frees 1000 w1.log = frees 1000 (sample 1).log :=
  ref_release_keeps_positive 56 7 1000 (sample 1) _ (sample_heap 1) rfl (by decide)
    (by decide)

/-- C2 (what the code does instead): two balanced sequences on a freshly
allocated block, the single release and the sequence of the demo (two retains
and three releases), end with the block still allocated, the count 0 and no
`free` in the log. -/
theorem balanced_sequences_leak :
    ∃ w1 w2 w3, ref_alloc 56 4 1000 0 World.empty = .ok (1056, w1) ∧
      run 56 1056 [.release 0] w1 = .ok w2 ∧
      w2.heap 1000 = some { data := 1056, mutex := .unlocked, ref := 0 } ∧
      frees 1000 w2.log = 0 ∧
      run 56 1056 [.retain 0, .retain 0, .release 1, .release 2, .release 0] w1 = .ok w3 ∧
      w3.heap 1000 = some { data := 1056, mutex := .unlocked, ref := 0 } ∧
      frees 1000 w3.log = 0 := by
  exact ⟨_, _, _, rfl, rfl, rfl, rfl, rfl, rfl, rfl⟩

/-- C3: `ref_alloc` asks `calloc` for `sizeof(obj_t) + size` bytes, computed
in `size_t` without a check.  For every size with
`sizeof(obj_t) + size ≤ SIZE_MAX`, when `calloc` answers a non-null address and
`pthread_mutex_init` answers 0, `ref_alloc` reserves exactly
`sizeof(obj_t) + size` bytes and returns the non-null handle
`res + sizeof(obj_t)` of a live block whose count is 1 and whose mutex is
initialised and not held, having written the count once, initialised the mutex
and set the payload pointer, and `ref_count` called right afterwards, by any
thread, returns 1.  For a size at which the sum wraps to less than
`sizeof(obj_t)`, the block `calloc` answers is shorter than the control block,
the write `obj->ref = 1` is out of bounds, and `ref_alloc` returns no handle
to a live object, whatever `pthread_mutex_init` would answer. -/
theorem ref_alloc_live_unless_size_wraps (sz size : Nat) (res : Addr) (w : World) (t : Tid)
    (hres : res ≠ 0) :
    (sz + size ≤ SIZE_MAX →
      ∃ w1 w2, ref_alloc sz size res 0 w = .ok (res + sz, w1) ∧ res + sz ≠ 0 ∧
        w1.heap res = some { data := res + sz, mutex := .unlocked, ref := 1 } ∧
        w1.log = w.log ++ [.calloc (sz + size) res, .store_ref res 1, .mutex_init res 0,
          .store_data res (res + sz)] ∧
        ref_count sz t (res + sz) w1 = .ok (1, w2)) ∧
    (wrapSize (sz + size) < sz →
      ∀ st, ref_alloc sz size res st w = .error .undefined) := by
  constructor
  · intro hfit
    obtain ⟨hw, hroom⟩ := fits_of_le_SIZE_MAX sz size hfit
    have halloc := ref_alloc_eq_ok sz size res w hres hroom
    have hcount := ref_count_eq sz t res
      { heap := Function.update w.heap res
          (some { data := res + sz, mutex := .unlocked, ref := 1 }),
        log := w.log ++ [.calloc (wrapSize (sz + size)) res, .store_ref res 1,
          .mutex_init res 0, .store_data res (res + sz)] }
      { data := res + sz, mutex := .unlocked, ref := 1 } (by simp) rfl
    exact ⟨_, _, halloc, fun h => hres (Nat.add_eq_zero_iff.mp h).1, by simp, by simp [hw],
      hcount⟩
  · intro hshort st
    exact ref_alloc_eq_out_of_bounds sz size res st w hres hshort

/-- C3 at two concrete inputs, with a control block of 56 bytes and `calloc`
answering `1000` in the empty world: for 4 bytes `ref_alloc` returns the handle
`1056` of a live block with count 1; for `SIZE_MAX - 55` bytes, a size `size_t`
holds, the sum wraps to 0, `calloc` is asked for 0 bytes, and `ref_alloc`
writes the count out of bounds. -/
theorem ref_alloc_live_unless_size_wraps_witness :
    (∃ w1 w2, ref_alloc 56 4 1000 0 World.empty = .ok (1000 + 56, w1) ∧ 1000 + 56 ≠ 0 ∧
      w1.heap 1000 = some { data := 1000 + 56, mutex := .unlocked, ref := 1 } ∧
      w1.log = World.empty.log ++ [.calloc (56 + 4) 1000, .store_ref 1000 1,
        .mutex_init 1000 0, .store_data 1000 (1000 + 56)] ∧
      ref_count 56 3 (1000 + 56) w1 = .ok (1, w2)) ∧
    18446744073709551560 ≤ SIZE_MAX ∧ wrapSize (56 + 18446744073709551560) = 0 ∧
    ref_alloc 56 18446744073709551560 1000 0 World.empty = .error .undefined :=
  ⟨(ref_alloc_live_unless_size_wraps 56 4 1000 World.empty 3 (by decide)).1 (by decide),
    by decide, by decide,
    (ref_alloc_live_unless_size_wraps 56 18446744073709551560 1000 World.empty 3
      (by decide)).2 (by decide) 0⟩

/-- C4: for every live block whose mutex is free and whose count `n` is an
`int` below `INT_MAX`, `ref_retain` returns (it has no failure path), the
count is `n + 1`, the block is still allocated and nothing else in it or in
the heap has changed, and the mutex is free again after having been acquired
and released by the caller. -/
theorem ref_retain_increments (sz : Nat) (t : Tid) (a : Addr) (w : World) (o : obj_t)
    (hl : w.heap a = some o) (hm : o.mutex = .unlocked) (hmin : INT_MIN ≤ o.ref)
    (hmax : o.ref < INT_MAX) :
    ref_retain sz t (a + sz) w = .ok
      { heap := Function.update w.heap a (some { o with ref := o.ref + 1 }),
        log := w.log ++ [.mutex_lock t a 0, .store_ref a (o.ref + 1), .mutex_unlock t a 0] } := by
  have hw : wrapInt (o.ref + 1) = o.ref + 1 := by
    unfold INT_MIN at hmin
    unfold INT_MAX at hmax
    unfold wrapInt
    omega
  rw [ref_retain_eq sz t a w o hl hm, hw]

/-- C4 at a concrete input: the count 5 becomes 6. -/
theorem ref_retain_increments_witness :
    ref_retain 56 2 (1000 + 56) (sample 5) = .ok
      { heap := Function.update (sample 5).heap 1000
          (some { data := 1056, mutex := .unlocked, ref := 5 + 1 }),
        log := (sample 5).log ++
          [.mutex_lock 2 1000 0, .store_ref 1000 (5 + 1), .mutex_unlock 2 1000 0] } :=
  ref_retain_increments 56 2 1000 (sample 5) _ (sample_heap 5) rfl (by decide) (by decide)

/-- C5 (amended): for every sequence of `r` retains and `s` releases applied
to a freshly allocated block that is still allocated after the sequence, and
with `1 + r - s` not above `INT_MAX`, `ref_count` returns `1 + r - s`; and
after `ref_alloc`, two successful `ref_pthread_create` calls and the releases
of the two spawned threads it returns 1. -/
theorem ref_count_tracks_references (sz size : Nat) (res p : Addr) (w w1 w2 : World)
    (ops : List Op) (t : Tid)
    (halloc : ref_alloc sz size res 0 w = .ok (p, w1)) (hp : p ≠ 0)
    (hrun : run sz p ops w1 = .ok w2) (hlive : w2.heap res ≠ none)
    (hmax : 1 + (retains ops : Int) - (releases ops : Int) ≤ INT_MAX) :
    (∃ w3, ref_count sz t p w2 = .ok (1 + (retains ops : Int) - (releases ops : Int), w3)) ∧
    (∀ r1 r2 c1 c2 : Nat, ∃ wa wb wc wd we,
      ref_pthread_create sz t r1 p 0 w1 = .ok (0, wa) ∧
      ref_pthread_create sz t r2 p 0 wa = .ok (0, wb) ∧
      ref_release sz c1 p wb = .ok wc ∧
      ref_release sz c2 p wc = .ok wd ∧
      ref_count sz t p wd = .ok (1, we)) := by
  obtain ⟨hpe, hl1⟩ := ref_alloc_fresh sz size res p w w1 halloc hp
  subst hpe
  constructor
  · cases hl2 : w2.heap res with
    | none => exact absurd hl2 hlive
    | some o2 =>
      obtain ⟨hm2, _, hr2, h0⟩ := run_count sz res ops w1 _ 1 hl1 rfl (by simp [wrapInt])
        (by omega) w2 o2 hrun hl2
      have hw : wrapInt (1 + (retains ops : Int) - (releases ops : Int))
          = 1 + (retains ops : Int) - (releases ops : Int) := by
        unfold INT_MAX at hmax
        unfold wrapInt
        omega
      have hc := ref_count_eq sz t res w2 o2 hl2 hm2
      rw [hr2, hw] at hc
      exact ⟨_, hc⟩
  · intro r1 r2 c1 c2
    obtain ⟨wa, ha, hla⟩ : ∃ wa, ref_pthread_create sz t r1 (res + sz) 0 w1 = .ok (0, wa) ∧
        wa.heap res = some { data := res + sz, mutex := .unlocked, ref := 2 } :=
      ⟨_, ref_pthread_create_eq_ok sz t r1 res w1 _ hl1 rfl, by simp [wrapInt]⟩
    obtain ⟨wb, hb, hlb⟩ : ∃ wb, ref_pthread_create sz t r2 (res + sz) 0 wa = .ok (0, wb) ∧
        wb.heap res = some { data := res + sz, mutex := .unlocked, ref := 3 } :=
      ⟨_, ref_pthread_create_eq_ok sz t r2 res wa _ hla rfl, by simp [wrapInt]⟩
    obtain ⟨wc, hc, hlc⟩ : ∃ wc, ref_release sz c1 (res + sz) wb = .ok wc ∧
        wc.heap res = some { data := res + sz, mutex := .unlocked, ref := 2 } :=
      ⟨_, ref_release_eq_keep sz c1 res wb _ hlb rfl (by simp), by simp [wrapInt]⟩
    obtain ⟨wd, hd, hld⟩ : ∃ wd, ref_release sz c2 (res + sz) wc = .ok wd ∧
        wd.heap res = some { data := res + sz, mutex := .unlocked, ref := 1 } :=
      ⟨_, ref_release_eq_keep sz c2 res wc _ hlc rfl (by simp), by simp [wrapInt]⟩
    exact ⟨wa, wb, wc, wd, _, ha, hb, hc, hd, ref_count_eq sz t res wd _ hld rfl⟩

/-- C5 (amended) at a concrete input: one retain and one release on a fresh
4-byte object leave the count 1. -/
theorem ref_count_tracks_references_witness :
    (∃ w3, ref_count 56 0 1056 (worldOf (run 56 1056 [Op.retain 1, Op.release 1] fresh))
        = .ok (1 + (retains [Op.retain 1, Op.release 1] : Int)
            - (releases [Op.retain 1, Op.release 1] : Int), w3)) ∧
    (∀ r1 r2 c1 c2 : Nat, ∃ wa wb wc wd we,
      ref_pthread_create 56 0 r1 1056 0 fresh = .ok (0, wa) ∧
      ref_pthread_create 56 0 r2 1056 0 wa = .ok (0, wb) ∧
      ref_release 56 c1 1056 wb = .ok wc ∧
      ref_release 56 c2 1056 wc = .ok wd ∧
      ref_count 56 0 1056 wd = .ok (1, we)) :=
  ref_count_tracks_references 56 4 1000 1056 World.empty fresh
    (worldOf (run 56 1056 [Op.retain 1, Op.release 1] fresh)) [Op.retain 1, Op.release 1] 0
    rfl (by decide) rfl (by decide) (by decide)

/-- C5 (as stated, refuted): after 2147483647 retains on a fresh block the
block is still allocated and `ref_count` returns -2147483648, not
`1 + r - s = 2147483648`: the `int` count has wrapped. -/
theorem ref_count_wraps_at_int_max :
    ∃ w2 w3, run 56 1056 (List.replicate 2147483647 (Op.retain 0)) fresh = .ok w2 ∧
      w2.heap 1000 ≠ none ∧
      ref_count 56 0 1056 w2 = .ok (-2147483648, w3) ∧
      (-2147483648 : Int) ≠ 1 + (retains (List.replicate 2147483647 (Op.retain 0)) : Int)
        - (releases (List.replicate 2147483647 (Op.retain 0)) : Int) := by
  have hf : fresh.heap 1000 = some { data := 1056, mutex := .unlocked, ref := 1 } := rfl
  obtain ⟨w2, o2, hrun, hl2⟩ := run_retains 56 0 1000 2147483647 fresh _ hf rfl
  obtain ⟨hm2, _, hr2, _⟩ := run_count 56 1000 _ fresh _ 1 hf rfl (by simp [wrapInt])
    (by omega) w2 o2 hrun hl2
  rw [(retains_replicate 0 2147483647).1, (retains_replicate 0 2147483647).2] at hr2
  have hv : o2.ref = -2147483648 := by
    rw [hr2]
    unfold wrapInt
    norm_num
  have hc := ref_count_eq 56 0 1000 w2 o2 hl2 hm2
  rw [hv] at hc
  refine ⟨w2, _, hrun, ?_, hc, ?_⟩
  · rw [hl2]; exact Option.some_ne_none _
  · rw [(retains_replicate 0 2147483647).1, (retains_replicate 0 2147483647).2]
    norm_num

/-- C6: for every live block whose mutex is free and whose count `n` is an
`int` with `n ≥ 1`, when `pthread_create` fails with the non-zero status `e`,
`ref_pthread_create` returns exactly `e`, the block is still allocated and
not freed, and the heap, the count `n` included, is what it was before the
call. -/
theorem ref_pthread_create_failure_compensated (sz : Nat) (t : Tid) (routine : Nat)
    (a : Addr) (e : Int) (w : World) (o : obj_t) (hl : w.heap a = some o)
    (hm : o.mutex = .unlocked) (h1 : 1 ≤ o.ref) (h2 : o.ref ≤ INT_MAX) (he : e ≠ 0) :
    ∃ w1, ref_pthread_create sz t routine (a + sz) e w = .ok (e, w1) ∧
      w1.heap = w.heap ∧ w1.heap a = some o ∧ frees a w1.log = frees a w.log := by
  have hn : wrapInt (o.ref + 1) ≠ 0 := by
    unfold INT_MAX at h2
    unfold wrapInt
    omega
  have hback : wrapInt (wrapInt (o.ref + 1) - 1) = o.ref := by
    unfold INT_MAX at h2
    unfold wrapInt
    omega
  have hheap : Function.update w.heap a
      (some { o with ref := wrapInt (wrapInt (o.ref + 1) - 1) }) = w.heap := by
    rw [hback]
    cases o
    simp_all
  refine ⟨_, ref_pthread_create_eq_fail sz t routine a e w o hl hm he hn, hheap, ?_, ?_⟩
  · show Function.update w.heap a _ a = some o
    rw [hheap, hl]
  · simp [frees, List.count_append, List.count_cons]

/-- C6 at a concrete input: creation fails with status 11 on a block of count 1. -/
theorem ref_pthread_create_failure_compensated_witness :
    ∃ w1, ref_pthread_create 56 0 9 (1000 + 56) 11 (sample 1) = .ok (11, w1) ∧
      w1.heap = (sample 1).heap ∧
      w1.heap 1000 = some { data := 1056, mutex := .unlocked, ref := 1 } ∧
      frees 1000 w1.log = frees 1000 (sample 1).log :=
  ref_pthread_create_failure_compensated 56 0 9 1000 11 (sample 1) _ (sample_heap 1) rfl
    (by decide) (by decide) (by decide)

/-- C7 (as stated, refuted): on a live block whose count is `INT_MAX` a
successful `ref_pthread_create` leaves the count -2147483648, which is neither
`n + 1` nor at least 2. -/
theorem ref_pthread_create_wraps_at_int_max :
    ∃ w2, ref_pthread_create 56 0 9 1056 0 (sample 2147483647) = .ok (0, w2) ∧
      w2.heap 1000 = some { data := 1056, mutex := .unlocked, ref := -2147483648 } ∧
      (-2147483648 : Int) ≠ 2147483647 + 1 ∧ ¬ ((2 : Int) ≤ -2147483648) :=
  ⟨_, rfl, rfl, by decide, by decide⟩

/-- C7 (amended): for every live block whose mutex is free and whose count `n`
is an `int` with `1 ≤ n < INT_MAX`, `ref_pthread_create` performs the retain
first, so `pthread_create` is called in a world `w1` where the count is
`n + 1 ≥ 2`; when thread creation succeeds the call returns 0, the count stays
`n + 1` and the log shows the retain, then the thread creation, and no release. -/
theorem ref_pthread_create_handoff (sz : Nat) (t : Tid) (routine : Nat) (a : Addr)
    (w : World) (o : obj_t) (hl : w.heap a = some o) (hm : o.mutex = .unlocked)
    (h1 : 1 ≤ o.ref) (h2 : o.ref < INT_MAX) :
    ∃ w1 w2, ref_retain sz t (a + sz) w = .ok w1 ∧
      w1.heap a = some { o with ref := o.ref + 1 } ∧ 2 ≤ o.ref + 1 ∧
      pthread_create t routine (a + sz) 0 w1 = (0, w2) ∧
      ref_pthread_create sz t routine (a + sz) 0 w = .ok (0, w2) ∧
      w2.heap a = some { o with ref := o.ref + 1 } ∧
      w2.log = w.log ++ [.mutex_lock t a 0, .store_ref a (o.ref + 1), .mutex_unlock t a 0,
        .thread_create t routine (a + sz) 0] := by
  have hw : wrapInt (o.ref + 1) = o.ref + 1 := by
    unfold INT_MAX at h2
    unfold wrapInt
    omega
  have hret := ref_retain_eq sz t a w o hl hm
  have hcr := ref_pthread_create_eq_ok sz t routine a w o hl hm
  rw [hw] at hret hcr
  refine ⟨_, _, hret, by simp, by omega, ?_, hcr, by simp, by simp⟩
  simp [pthread_create, World.emit]

/-- C7 (amended) at a concrete input: the count 1 is 2 when the thread is created. -/
theorem ref_pthread_create_handoff_witness :
    ∃ w1 w2, ref_retain 56 0 (1000 + 56) (sample 1) = .ok w1 ∧
      w1.heap 1000 = some { data := 1056, mutex := .unlocked, ref := 1 + 1 } ∧
      (2 : Int) ≤ 1 + 1 ∧
      pthread_create 0 9 (1000 + 56) 0 w1 = (0, w2) ∧
      ref_pthread_create 56 0 9 (1000 + 56) 0 (sample 1) = .ok (0, w2) ∧
      w2.heap 1000 = some { data := 1056, mutex := .unlocked, ref := 1 + 1 } ∧
      w2.log = (sample 1).log ++ [.mutex_lock 0 1000 0, .store_ref 1000 (1 + 1),
        .mutex_unlock 0 1000 0, .thread_create 0 9 (1000 + 56) 0] :=
  ref_pthread_create_handoff 56 0 9 1000 (sample 1) _ (sample_heap 1) rfl (by decide)
    (by decide)

/-- C9: for every block reached from a successful `ref_alloc` by a sequence of
retains and releases, each applied while the block is allocated and none
overflowing the `int` count, and still allocated afterwards, `ref_count`
returns the stored count, that value is at least 0, and the call leaves the
count and the whole heap unchanged. -/
theorem ref_count_nonnegative (sz size : Nat) (res p : Addr) (w w1 w2 : World)
    (ops : List Op) (t : Tid) (o : obj_t)
    (halloc : ref_alloc sz size res 0 w = .ok (p, w1)) (hp : p ≠ 0)
    (hrun : run sz p ops w1 = .ok w2) (hsafe : noOverflow sz res ops w1 = true)
    (hlive : w2.heap res = some o) :
    ∃ w3, ref_count sz t p w2 = .ok (o.ref, w3) ∧ 0 ≤ o.ref ∧
      w3.heap res = some o ∧ w3.heap = w2.heap := by
  obtain ⟨hpe, hl1⟩ := ref_alloc_fresh sz size res p w w1 halloc hp
  subst hpe
  obtain ⟨hm2, h0, _⟩ := run_nonneg sz res ops w1 _ hl1 rfl (by simp) (by simp [INT_MAX])
    hsafe w2 o hrun hlive
  exact ⟨_, ref_count_eq sz t res w2 o hlive hm2, h0, hlive, rfl⟩

/-- C9 at a concrete input: after a single release the fresh block is still
allocated and `ref_count` returns its count 0. -/
theorem ref_count_nonnegative_witness :
    ∃ w3, ref_count 56 0 1056 (worldOf (run 56 1056 [Op.release 1] fresh))
        = .ok ((obj_t.mk 1056 .unlocked 0).ref, w3) ∧
      0 ≤ (obj_t.mk 1056 .unlocked 0).ref ∧
      w3.heap 1000 = some (obj_t.mk 1056 .unlocked 0) ∧
      w3.heap = (worldOf (run 56 1056 [Op.release 1] fresh)).heap :=
  ref_count_nonnegative 56 4 1000 1056 World.empty fresh
    (worldOf (run 56 1056 [Op.release 1] fresh)) [Op.release 1] 0 _ rfl (by decide) rfl rfl
    rfl

/-- C10: for every live block, `ref_pthread_mutex_trylock` on a mutex that is
held (by any thread `u`) returns `EBUSY` at once and leaves the heap, so also
the owner of the mutex, unchanged; on a mutex that is not held it returns 0
and leaves the mutex held by the caller, so that a second trylock before an
unlock, by any thread, returns `EBUSY` and the caller still holds the mutex. -/
theorem ref_pthread_mutex_trylock_nonblocking (sz : Nat) (t : Tid) (a : Addr) (w : World)
    (o : obj_t) (hl : w.heap a = some o) :
    (∀ u, o.mutex = .lockedBy u →
      ref_pthread_mutex_trylock sz t (a + sz) w = .ok (EBUSY,
        { heap := w.heap, log := w.log ++ [.mutex_trylock t a EBUSY] })) ∧
    (o.mutex = .unlocked →
      ∃ w1, ref_pthread_mutex_trylock sz t (a + sz) w = .ok (0, w1) ∧
        w1.heap a = some { o with mutex := .lockedBy t } ∧
        ∀ t2, ∃ w2, ref_pthread_mutex_trylock sz t2 (a + sz) w1 = .ok (EBUSY, w2) ∧
          w2.heap a = some { o with mutex := .lockedBy t }) := by
  constructor
  · intro u hu
    simp [ref_pthread_mutex_trylock, header_add, mutexOp, hl, hu, pthread_mutex_trylock,
      World.store, World.emit, bind, Except.bind]
    cases o
    simp_all
  · intro hu
    refine ⟨(w.store a (some { o with mutex := .lockedBy t })).emit (.mutex_trylock t a 0),
      ?_, ?_, ?_⟩
    · simp [ref_pthread_mutex_trylock, header_add, mutexOp, hl, hu, pthread_mutex_trylock,
        bind, Except.bind]
    · simp [World.store, World.emit]
    · intro t2
      refine ⟨((w.store a (some { o with mutex := .lockedBy t })).emit
        (.mutex_trylock t a 0)).emit (.mutex_trylock t2 a EBUSY), ?_, ?_⟩
      · simp [ref_pthread_mutex_trylock, header_add, mutexOp, pthread_mutex_trylock,
          World.store, World.emit, bind, Except.bind]
      · simp [World.store, World.emit]

/-- C10 at two concrete inputs: thread 2 tries the mutex of a block whose
mutex is free, and of a block whose mutex thread 5 holds. -/
theorem ref_pthread_mutex_trylock_nonblocking_witness :
    ((∀ u, (obj_t.mk 1056 .unlocked 1).mutex = .lockedBy u →
      ref_pthread_mutex_trylock 56 2 (1000 + 56) (sample 1) = .ok (EBUSY,
        { heap := (sample 1).heap, log := (sample 1).log ++ [.mutex_trylock 2 1000 EBUSY] })) ∧
    ((obj_t.mk 1056 .unlocked 1).mutex = .unlocked →
      ∃ w1, ref_pthread_mutex_trylock 56 2 (1000 + 56) (sample 1) = .ok (0, w1) ∧
        w1.heap 1000 = some { data := 1056, mutex := .lockedBy 2, ref := 1 } ∧
        ∀ t2, ∃ w2, ref_pthread_mutex_trylock 56 t2 (1000 + 56) w1 = .ok (EBUSY, w2) ∧
          w2.heap 1000 = some { data := 1056, mutex := .lockedBy 2, ref := 1 })) ∧
    ref_pthread_mutex_trylock 56 2 (1000 + 56) (sampleHeld 1 5) = .ok (EBUSY,
      { heap := (sampleHeld 1 5).heap,
        log := (sampleHeld 1 5).log ++ [.mutex_trylock 2 1000 EBUSY] }) :=
  ⟨ref_pthread_mutex_trylock_nonblocking 56 2 1000 (sample 1) _ (sample_heap 1),
    (ref_pthread_mutex_trylock_nonblocking 56 2 1000 (sampleHeld 1 5) _
      (sampleHeld_heap 1 5)).1 5 rfl⟩


/-- C11: on a live block each of the three lock wrappers applies its
primitive to the mutex of the block the handle belongs to and returns the
status of the primitive unchanged, whatever that status is, changing nothing
but that mutex, and has no result exactly when the primitive has none.  So on
a mutex whose calls fail with an error number `s` each wrapper returns `s`,
for every `s`; on a free mutex the lock and the trylock return 0 and the
caller holds the mutex; on a held mutex the trylock returns `EBUSY`, the lock
waits and the unlock by the holder returns 0.  The mutex is the one the
protocol acquires: once a wrapper has locked it, `ref_retain`, `ref_release`
and `ref_count` wait. -/
theorem lock_wrappers_pass_through (sz : Nat) (t : Tid) (a : Addr) (w : World) (o : obj_t)
    (hl : w.heap a = some o) :
    (∀ st m, pthread_mutex_lock t o.mutex = .ok (st, m) →
      ref_pthread_mutex_lock sz t (a + sz) w = .ok (st,
        { heap := Function.update w.heap a (some { o with mutex := m }),
          log := w.log ++ [.mutex_lock t a st] })) ∧
    (∀ st m, pthread_mutex_unlock t o.mutex = .ok (st, m) →
      ref_pthread_mutex_unlock sz t (a + sz) w = .ok (st,
        { heap := Function.update w.heap a (some { o with mutex := m }),
          log := w.log ++ [.mutex_unlock t a st] })) ∧
    (∀ st m, pthread_mutex_trylock t o.mutex = .ok (st, m) →
      ref_pthread_mutex_trylock sz t (a + sz) w = .ok (st,
        { heap := Function.update w.heap a (some { o with mutex := m }),
          log := w.log ++ [.mutex_trylock t a st] })) ∧
    (∀ e, (pthread_mutex_lock t o.mutex = .error e →
        ref_pthread_mutex_lock sz t (a + sz) w = .error e) ∧
      (pthread_mutex_unlock t o.mutex = .error e →
        ref_pthread_mutex_unlock sz t (a + sz) w = .error e) ∧
      (pthread_mutex_trylock t o.mutex = .error e →
        ref_pthread_mutex_trylock sz t (a + sz) w = .error e)) ∧
    (∀ s, s ≠ 0 → o.mutex = .failing s →
      ref_pthread_mutex_lock sz t (a + sz) w = .ok (s,
        { heap := w.heap, log := w.log ++ [.mutex_lock t a s] }) ∧
      ref_pthread_mutex_unlock sz t (a + sz) w = .ok (s,
        { heap := w.heap, log := w.log ++ [.mutex_unlock t a s] }) ∧
      ref_pthread_mutex_trylock sz t (a + sz) w = .ok (s,
        { heap := w.heap, log := w.log ++ [.mutex_trylock t a s] })) ∧
    (o.mutex = .unlocked →
      ref_pthread_mutex_lock sz t (a + sz) w = .ok (0,
        { heap := Function.update w.heap a (some { o with mutex := .lockedBy t }),
          log := w.log ++ [.mutex_lock t a 0] }) ∧
      ref_pthread_mutex_trylock sz t (a + sz) w = .ok (0,
        { heap := Function.update w.heap a (some { o with mutex := .lockedBy t }),
          log := w.log ++ [.mutex_trylock t a 0] })) ∧
    (∀ u, o.mutex = .lockedBy u →
      ref_pthread_mutex_trylock sz t (a + sz) w = .ok (EBUSY,
        { heap := w.heap, log := w.log ++ [.mutex_trylock t a EBUSY] }) ∧
      ref_pthread_mutex_lock sz t (a + sz) w = .error .blocks ∧
      ref_pthread_mutex_unlock sz u (a + sz) w = .ok (0,
        { heap := Function.update w.heap a (some { o with mutex := .unlocked }),
          log := w.log ++ [.mutex_unlock u a 0] })) ∧
    (∀ w1, (ref_pthread_mutex_lock sz t (a + sz) w = .ok (0, w1) ∨
        ref_pthread_mutex_trylock sz t (a + sz) w = .ok (0, w1)) →
      ∀ u, ref_retain sz u (a + sz) w1 = .error .blocks ∧
        ref_release sz u (a + sz) w1 = .error .blocks ∧
        ref_count sz u (a + sz) w1 = .error .blocks) := by
  refine ⟨?_, ?_, ?_, ?_, ?_, ?_, ?_, ?_⟩
  · intro st m h
    simp [ref_pthread_mutex_lock, header_add, mutexOp, hl, h, World.store, World.emit, bind,
      Except.bind]
  · intro st m h
    simp [ref_pthread_mutex_unlock, header_add, mutexOp, hl, h, World.store, World.emit, bind,
      Except.bind]
  · intro st m h
    simp [ref_pthread_mutex_trylock, header_add, mutexOp, hl, h, World.store, World.emit, bind,
      Except.bind]
  · intro e
    refine ⟨?_, ?_, ?_⟩ <;> intro h <;>
      simp [ref_pthread_mutex_lock, ref_pthread_mutex_unlock, ref_pthread_mutex_trylock,
        header_add, mutexOp, hl, h, bind, Except.bind]
  · intro s hs hm
    refine ⟨?_, ?_, ?_⟩ <;>
      simp [ref_pthread_mutex_lock, ref_pthread_mutex_unlock, ref_pthread_mutex_trylock,
        header_add, mutexOp, hl, hm, hs, pthread_mutex_lock, pthread_mutex_unlock,
        pthread_mutex_trylock, World.store, World.emit, bind, Except.bind] <;>
      (cases o; simp_all)
  · intro hm
    refine ⟨?_, ?_⟩ <;>
      simp [ref_pthread_mutex_lock, ref_pthread_mutex_trylock, header_add, mutexOp, hl, hm,
        pthread_mutex_lock, pthread_mutex_trylock, World.store, World.emit, bind, Except.bind]
  · intro u hm
    refine ⟨?_, ?_, ?_⟩
    · simp [ref_pthread_mutex_trylock, header_add, mutexOp, hl, hm, pthread_mutex_trylock,
        World.store, World.emit, bind, Except.bind]
      cases o
      simp_all
    · simp [ref_pthread_mutex_lock, header_add, mutexOp, hl, hm, pthread_mutex_lock, bind,
        Except.bind]
    · simp [ref_pthread_mutex_unlock, header_add, mutexOp, hl, hm, pthread_mutex_unlock,
        World.store, World.emit, bind, Except.bind]
  · intro w1 h u
    have hw1 : w1.heap a = some { o with mutex := .lockedBy t } := by
      cases hm : o.mutex with
      | failing s =>
        by_cases hs : s = 0 <;>
          rcases h with h | h <;>
          simp [ref_pthread_mutex_lock, ref_pthread_mutex_trylock, header_add, mutexOp, hl, hm,
            hs, pthread_mutex_lock, pthread_mutex_trylock, bind, Except.bind] at h
      | _ =>
        rcases h with h | h <;>
          simp [ref_pthread_mutex_lock, ref_pthread_mutex_trylock, header_add, mutexOp, hl, hm,
            pthread_mutex_lock, pthread_mutex_trylock, World.store, World.emit, bind,
            Except.bind, EBUSY] at h <;>
          (rw [← h]; simp)
    exact calls_wait_for_held_mutex sz u t a w1 _ hw1 rfl

/-- C11 at concrete inputs: locking a free mutex returns 0, unlocking the mutex
the caller holds returns 0, trying a held mutex returns `EBUSY`, locking a held
mutex waits, and on a mutex whose calls fail the three wrappers return the
error number, `EINVAL` here and 35 there. -/
theorem lock_wrappers_pass_through_witness :
    ref_pthread_mutex_lock 56 2 (1000 + 56) (sample 1) = .ok (0,
      { heap := Function.update (sample 1).heap 1000
          (some { data := 1056, mutex := .lockedBy 2, ref := 1 }),
        log := (sample 1).log ++ [.mutex_lock 2 1000 0] }) ∧
    ref_pthread_mutex_unlock 56 5 (1000 + 56) (sampleHeld 1 5) = .ok (0,
      { heap := Function.update (sampleHeld 1 5).heap 1000
          (some { data := 1056, mutex := .unlocked, ref := 1 }),
        log := (sampleHeld 1 5).log ++ [.mutex_unlock 5 1000 0] }) ∧
    ref_pthread_mutex_trylock 56 2 (1000 + 56) (sampleHeld 1 5) = .ok (EBUSY,
      { heap := Function.update (sampleHeld 1 5).heap 1000
          (some { data := 1056, mutex := .lockedBy 5, ref := 1 }),
        log := (sampleHeld 1 5).log ++ [.mutex_trylock 2 1000 EBUSY] }) ∧
    ref_pthread_mutex_lock 56 2 (1000 + 56) (sampleHeld 1 5) = .error .blocks ∧
    (ref_pthread_mutex_lock 56 2 (1000 + 56) (sampleFailing 1 EINVAL) = .ok (EINVAL,
        { heap := (sampleFailing 1 EINVAL).heap,
          log := (sampleFailing 1 EINVAL).log ++ [.mutex_lock 2 1000 EINVAL] }) ∧
      ref_pthread_mutex_unlock 56 2 (1000 + 56) (sampleFailing 1 EINVAL) = .ok (EINVAL,
        { heap := (sampleFailing 1 EINVAL).heap,
          log := (sampleFailing 1 EINVAL).log ++ [.mutex_unlock 2 1000 EINVAL] }) ∧
      ref_pthread_mutex_trylock 56 2 (1000 + 56) (sampleFailing 1 EINVAL) = .ok (EINVAL,
        { heap := (sampleFailing 1 EINVAL).heap,
          log := (sampleFailing 1 EINVAL).log ++ [.mutex_trylock 2 1000 EINVAL] })) ∧
    ref_pthread_mutex_unlock 56 2 (1000 + 56) (sampleFailing 1 35) = .ok (35,
      { heap := Function.update (sampleFailing 1 35).heap 1000
          (some { data := 1056, mutex := .failing 35, ref := 1 }),
        log := (sampleFailing 1 35).log ++ [.mutex_unlock 2 1000 35] }) :=
  ⟨(lock_wrappers_pass_through 56 2 1000 (sample 1) _ (sample_heap 1)).1 0 (.lockedBy 2) rfl,
    (lock_wrappers_pass_through 56 5 1000 (sampleHeld 1 5) _ (sampleHeld_heap 1 5)).2.1 0
      .unlocked rfl,
    (lock_wrappers_pass_through 56 2 1000 (sampleHeld 1 5) _ (sampleHeld_heap 1 5)).2.2.1 EBUSY
      (.lockedBy 5) rfl,
    ((lock_wrappers_pass_through 56 2 1000 (sampleHeld 1 5) _ (sampleHeld_heap 1 5)).2.2.2.1
      .blocks).1 rfl,
    (lock_wrappers_pass_through 56 2 1000 (sampleFailing 1 EINVAL) _
      (sampleFailing_heap 1 EINVAL)).2.2.2.2.1 EINVAL (by decide) rfl,
    (lock_wrappers_pass_through 56 2 1000 (sampleFailing 1 35) _
      (sampleFailing_heap 1 35)).2.1 35 (.failing 35) rfl⟩

/-- C12 (as stated, refuted): one locked increment of a payload that is
`INT_MAX` ends at -2147483648, not at the initial value + 1. -/
theorem payload_wraps_at_int_max :
    ∃ s, exec 56 1056 [0, 0, 0, 0, 0, 0, 0, 1, 1, 1] (duo 2147483647 1 0) = .ok s ∧
      allDone s.threads = true ∧ s.val = -2147483648 ∧
      (-2147483648 : Int) ≠ (duo 2147483647 1 0).val
        + (increments (duo 2147483647 1 0).threads : Int)
        - (decrements (duo 2147483647 1 0).threads : Int) :=
  ⟨_, rfl, rfl, rfl, by decide⟩

/-- C12 (amended): workers that start on a live block whose mutex is free and
whose count covers one reference per worker never are two at a time between
a lock and its unlock, whatever the interleaving; every interleaving is
defined, some interleaving lets all workers return, and whenever all workers
have returned the `int` payload is its initial value + N - M reduced to the
range of `int`, so exactly initial + N - M when that lies in the range; for the
demo (100, N = M = 100000) it is 100. -/
theorem workers_lose_no_update (sz : Nat) (a : Addr) (s0 : Sys) (o : obj_t)
    (hl : s0.world.heap a = some o) (hm : o.mutex = .unlocked)
    (hcnt : (s0.threads.length : Int) ≤ o.ref) (hmax : o.ref ≤ INT_MAX)
    (hv1 : INT_MIN ≤ s0.val) (hv2 : s0.val ≤ INT_MAX)
    (hentry : allAtEntry s0.threads = true) :
    (∀ sched, ∃ s, exec sz (a + sz) sched s0 = .ok s ∧
      (∀ (j1 j2 : Nat) (t1 t2 : Thread), s.threads[j1]? = some t1 →
        s.threads[j2]? = some t2 → t1.pc.inCrit = true → t2.pc.inCrit = true → j1 = j2) ∧
      (allDone s.threads = true →
        s.val = wrapInt (s0.val + (increments s0.threads : Int)
          - (decrements s0.threads : Int)) ∧
        (INT_MIN ≤ s0.val + (increments s0.threads : Int) - (decrements s0.threads : Int) →
          s0.val + (increments s0.threads : Int) - (decrements s0.threads : Int) ≤ INT_MAX →
          s.val = s0.val + (increments s0.threads : Int) - (decrements s0.threads : Int)))) ∧
    (∃ sched s, exec sz (a + sz) sched s0 = .ok s ∧ allDone s.threads = true) ∧
    (∀ sched, ∃ s, exec 56 1056 sched demo = .ok s ∧
      (allDone s.threads = true → s.val = 100)) ∧
    (∃ sched s, exec 56 1056 sched demo = .ok s ∧ allDone s.threads = true) := by
  have hcore := workers_core sz a s0 o hl hm hcnt hmax hv1 hv2 hentry
  have hdemo := workers_core 56 1000 demo _ (sample_heap 3) rfl (by decide) (by decide)
    (by decide) (by decide) rfl
  refine ⟨?_, hcore.2, ?_, hdemo.2⟩
  · intro sched
    obtain ⟨s, hs, hmutex, hval⟩ := hcore.1 sched
    refine ⟨s, hs, hmutex, fun hd => ⟨hval hd, fun h1 h2 => ?_⟩⟩
    rw [hval hd]
    unfold INT_MIN at h1
    unfold INT_MAX at h2
    unfold wrapInt
    omega
  · intro sched
    obtain ⟨s, hs, _, hval⟩ := hdemo.1 sched
    refine ⟨s, hs, fun hd => ?_⟩
    rw [hval hd]
    simp [demo, increments, decrements, Pc.todo, wrapInt]

/-- C12 (amended) at a concrete input: the payload 100, an incrementing worker
with two iterations and a decrementing one with one, under the interleaving
`zigzag`, which lets both return with the payload 101. -/
theorem workers_lose_no_update_witness :
    (∃ s, exec 56 (1000 + 56) zigzag (duo 100 2 1) = .ok s ∧
      (∀ (j1 j2 : Nat) (t1 t2 : Thread), s.threads[j1]? = some t1 →
        s.threads[j2]? = some t2 → t1.pc.inCrit = true → t2.pc.inCrit = true → j1 = j2) ∧
      (allDone s.threads = true →
        s.val = wrapInt ((duo 100 2 1).val + (increments (duo 100 2 1).threads : Int)
          - (decrements (duo 100 2 1).threads : Int)) ∧
        (INT_MIN ≤ (duo 100 2 1).val + (increments (duo 100 2 1).threads : Int)
            - (decrements (duo 100 2 1).threads : Int) →
          (duo 100 2 1).val + (increments (duo 100 2 1).threads : Int)
            - (decrements (duo 100 2 1).threads : Int) ≤ INT_MAX →
          s.val = (duo 100 2 1).val + (increments (duo 100 2 1).threads : Int)
            - (decrements (duo 100 2 1).threads : Int)))) ∧
    (∃ s, exec 56 1056 zigzag (duo 100 2 1) = .ok s ∧ allDone s.threads = true ∧
      s.val = 101) :=
  ⟨(workers_lose_no_update 56 1000 (duo 100 2 1) _ (sample_heap 3) rfl (by decide)
      (by decide) (by decide) (by decide) rfl).1 zigzag,
    ⟨_, rfl, rfl, rfl⟩⟩

/-- C13: a call of `ref_release` on a live block whose mutex is free either
frees, and then its effects are, in this order, lock acquire, write of the
decremented count, lock release, lock destroy, free of the block, with nothing
after the free; or it does not free, and then its effects are lock acquire,
write of the decremented count, lock release, with no destroy and no free. -/
theorem ref_release_destruction_order (sz : Nat) (t : Tid) (a : Addr) (w : World) (o : obj_t)
    (hl : w.heap a = some o) (hm : o.mutex = .unlocked) :
    ∃ w1, ref_release sz t (a + sz) w = .ok w1 ∧
      ((w1.heap a = none ∧ frees a w1.log = frees a w.log + 1 ∧
          w1.log = w.log ++ [.mutex_lock t a 0, .store_ref a (wrapInt (o.ref - 1)),
            .mutex_unlock t a 0, .mutex_destroy a 0, .free a]) ∨
        (w1.heap a = some { o with ref := wrapInt (o.ref - 1) } ∧
          frees a w1.log = frees a w.log ∧
          w1.log = w.log ++ [.mutex_lock t a 0, .store_ref a (wrapInt (o.ref - 1)),
            .mutex_unlock t a 0])) := by
  by_cases hz : o.ref = 0
  · refine ⟨_, ref_release_eq_free sz t a w o hl hm hz, Or.inl ⟨by simp, ?_, ?_⟩⟩
    · simp [frees, List.count_append, List.count_cons]
    · simp [hz, wrapInt]
  · refine ⟨_, ref_release_eq_keep sz t a w o hl hm hz, Or.inr ⟨by simp, ?_, rfl⟩⟩
    simp [frees, List.count_append, List.count_cons]

/-- C13 at two concrete inputs: a release that frees (count 0) and one that
does not (count 2). -/
theorem ref_release_destruction_order_witness :
    (∃ w1, ref_release 56 1 (1000 + 56) (sample 0) = .ok w1 ∧
      ((w1.heap 1000 = none ∧ frees 1000 w1.log = frees 1000 (sample 0).log + 1 ∧
          w1.log = (sample 0).log ++ [.mutex_lock 1 1000 0, .store_ref 1000 (wrapInt (0 - 1)),
            .mutex_unlock 1 1000 0, .mutex_destroy 1000 0, .free 1000]) ∨
        (w1.heap 1000 = some { data := 1056, mutex := .unlocked, ref := wrapInt (0 - 1) } ∧
          frees 1000 w1.log = frees 1000 (sample 0).log ∧
          w1.log = (sample 0).log ++ [.mutex_lock 1 1000 0, .store_ref 1000 (wrapInt (0 - 1)),
            .mutex_unlock 1 1000 0]))) ∧
    (∃ w1, ref_release 56 1 (1000 + 56) (sample 2) = .ok w1 ∧
      ((w1.heap 1000 = none ∧ frees 1000 w1.log = frees 1000 (sample 2).log + 1 ∧
          w1.log = (sample 2).log ++ [.mutex_lock 1 1000 0, .store_ref 1000 (wrapInt (2 - 1)),
            .mutex_unlock 1 1000 0, .mutex_destroy 1000 0, .free 1000]) ∨
        (w1.heap 1000 = some { data := 1056, mutex := .unlocked, ref := wrapInt (2 - 1) } ∧
          frees 1000 w1.log = frees 1000 (sample 2).log ∧
          w1.log = (sample 2).log ++ [.mutex_lock 1 1000 0, .store_ref 1000 (wrapInt (2 - 1)),
            .mutex_unlock 1 1000 0]))) :=
  ⟨ref_release_destruction_order 56 1 1000 (sample 0) _ (sample_heap 0) rfl,
    ref_release_destruction_order 56 1 1000 (sample 2) _ (sample_heap 2) rfl⟩


/-- C14 (as stated, refuted): in the trace of a successful `ref_alloc` the
write of the count is not made under the lock of the block: it comes before
the mutex is even initialised. -/
theorem ref_alloc_writes_count_without_lock :
    ∃ w1, ref_alloc 56 4 1000 0 World.empty = .ok (1056, w1) ∧
      w1.log = [.calloc 60 1000, .store_ref 1000 1, .mutex_init 1000 0,
        .store_data 1000 1056] ∧
      writesGuarded 1000 none w1.log = false :=
  ⟨_, rfl, rfl, rfl⟩

/-- C14 (amended): in the effect trace of `ref_retain`, `ref_release` and
`ref_pthread_create` (whatever `pthread_create` answers) on a live block whose
mutex is free, every write of the count lies between an acquire and the
matching release of the mutex of that block; `ref_alloc`, for a request
`sizeof(obj_t) + size` that does not exceed `SIZE_MAX`, writes the count once,
the value 1, right after `calloc` and before the mutex is initialised: its
trace is `calloc`, that write, `pthread_mutex_init`, and then the write of the
payload pointer when the initialisation succeeded and the `free` of the block
when it failed; when `calloc` fails its trace is the `calloc` alone. -/
theorem count_writes_under_lock (sz : Nat) (t : Tid) (routine : Nat) (a : Addr) (ret : Int)
    (w : World) (o : obj_t) (hl : w.heap a = some o) (hm : o.mutex = .unlocked) :
    (∃ w1 es, ref_retain sz t (a + sz) w = .ok w1 ∧ w1.log = w.log ++ es ∧
      writesGuarded a none es = true) ∧
    (∃ w1 es, ref_release sz t (a + sz) w = .ok w1 ∧ w1.log = w.log ++ es ∧
      writesGuarded a none es = true) ∧
    (∃ r es, ref_pthread_create sz t routine (a + sz) ret w = .ok r ∧ r.2.log = w.log ++ es ∧
      writesGuarded a none es = true) ∧
    (∀ (size : Nat) (res : Addr) (st : Int) (w0 : World), res ≠ 0 → sz + size ≤ SIZE_MAX →
      ∃ p w1, ref_alloc sz size res st w0 = .ok (p, w1) ∧
        w1.log = w0.log ++ [.calloc (sz + size) res, .store_ref res 1, .mutex_init res st,
          if st = 0 then .store_data res (res + sz) else .free res]) ∧
    (∀ (size : Nat) (st : Int) (w0 : World),
      ∃ w1, ref_alloc sz size 0 st w0 = .ok (0, w1) ∧
        w1.log = w0.log ++ [.calloc (wrapSize (sz + size)) 0]) := by
  refine ⟨⟨_, _, ref_retain_eq sz t a w o hl hm, rfl, by simp [writesGuarded]⟩, ?_, ?_, ?_,
    fun size st w0 => ⟨_, ref_alloc_eq_calloc_fails sz size st w0, rfl⟩⟩
  · by_cases hz : o.ref = 0
    · exact ⟨_, _, ref_release_eq_free sz t a w o hl hm hz, rfl, by simp [writesGuarded]⟩
    · exact ⟨_, _, ref_release_eq_keep sz t a w o hl hm hz, rfl, by simp [writesGuarded]⟩
  · by_cases hr : ret = 0
    · subst hr
      exact ⟨_, _, ref_pthread_create_eq_ok sz t routine a w o hl hm, rfl,
        by simp [writesGuarded]⟩
    · by_cases hn : wrapInt (o.ref + 1) = 0
      · exact ⟨_, _, ref_pthread_create_eq_fail_free sz t routine a ret w o hl hm hr hn, rfl,
          by simp [writesGuarded]⟩
      · exact ⟨_, _, ref_pthread_create_eq_fail sz t routine a ret w o hl hm hr hn, rfl,
          by simp [writesGuarded]⟩
  · intro size res st w0 hres hfit
    obtain ⟨hw, hroom⟩ := fits_of_le_SIZE_MAX sz size hfit
    by_cases hst : st = 0
    · subst hst
      exact ⟨_, _, ref_alloc_eq_ok sz size res w0 hres hroom, by simp [hw]⟩
    · exact ⟨_, _, ref_alloc_eq_init_fails sz size res st w0 hres hst hroom, by simp [hw, hst]⟩

/-- C14 (amended) at a concrete input: a block of count 1, thread creation
failing with status 11. -/
theorem count_writes_under_lock_witness :
    (∃ w1 es, ref_retain 56 2 (1000 + 56) (sample 1) = .ok w1 ∧
      w1.log = (sample 1).log ++ es ∧ writesGuarded 1000 none es = true) ∧
    (∃ w1 es, ref_release 56 2 (1000 + 56) (sample 1) = .ok w1 ∧
      w1.log = (sample 1).log ++ es ∧ writesGuarded 1000 none es = true) ∧
    (∃ r es, ref_pthread_create 56 2 9 (1000 + 56) 11 (sample 1) = .ok r ∧
      r.2.log = (sample 1).log ++ es ∧ writesGuarded 1000 none es = true) ∧
    (∀ (size : Nat) (res : Addr) (st : Int) (w0 : World), res ≠ 0 → 56 + size ≤ SIZE_MAX →
      ∃ p w1, ref_alloc 56 size res st w0 = .ok (p, w1) ∧
        w1.log = w0.log ++ [.calloc (56 + size) res, .store_ref res 1, .mutex_init res st,
          if st = 0 then .store_data res (res + 56) else .free res]) ∧
    (∀ (size : Nat) (st : Int) (w0 : World),
      ∃ w1, ref_alloc 56 size 0 st w0 = .ok (0, w1) ∧
        w1.log = w0.log ++ [.calloc (wrapSize (56 + size)) 0]) :=
  count_writes_under_lock 56 2 9 1000 11 (sample 1) _ (sample_heap 1) rfl

/-- C15: `ref_release` on a live block whose mutex is free frees the block
exactly when the count it finds is 0; so `ref_alloc` (of a size with
`sizeof(obj_t) + size ≤ SIZE_MAX`, so that the block holds the control block)
followed by one `ref_release` (count 1 to 0) leaves the block allocated with
`ref_count` returning 0, and one more `ref_release`, on the count 0, frees
it. -/
theorem ref_release_tests_count_before_decrement (sz size : Nat) (res : Addr) (w : World)
    (t : Tid) (hres : res ≠ 0) (hfit : sz + size ≤ SIZE_MAX) :
    (∀ (w0 : World) (a : Addr) (o : obj_t), w0.heap a = some o → o.mutex = .unlocked →
      ∃ w1, ref_release sz t (a + sz) w0 = .ok w1 ∧ (w1.heap a = none ↔ o.ref = 0) ∧
        (frees a w1.log = frees a w0.log + 1 ↔ o.ref = 0)) ∧
    (∃ w1 w2 w3 w4, ref_alloc sz size res 0 w = .ok (res + sz, w1) ∧
      ref_release sz t (res + sz) w1 = .ok w2 ∧
      w2.heap res = some { data := res + sz, mutex := .unlocked, ref := 0 } ∧
      frees res w2.log = frees res w.log ∧
      ref_count sz t (res + sz) w2 = .ok (0, w3) ∧
      ref_release sz t (res + sz) w3 = .ok w4 ∧
      w4.heap res = none ∧ frees res w4.log = frees res w.log + 1) := by
  constructor
  · intro w0 a o hl hm
    by_cases hz : o.ref = 0
    · refine ⟨_, ref_release_eq_free sz t a w0 o hl hm hz, by simp [hz], ?_⟩
      simp [frees, List.count_append, List.count_cons, hz]
    · refine ⟨_, ref_release_eq_keep sz t a w0 o hl hm hz, by simp [hz], ?_⟩
      simp [frees, List.count_append, List.count_cons, hz]
  · obtain ⟨w1, h1, hl1, hf1⟩ : ∃ w1, ref_alloc sz size res 0 w = .ok (res + sz, w1) ∧
        w1.heap res = some { data := res + sz, mutex := .unlocked, ref := 1 } ∧
        frees res w1.log = frees res w.log :=
      ⟨_, ref_alloc_eq_ok sz size res w hres (fits_of_le_SIZE_MAX sz size hfit).2, by simp,
        by simp [frees, List.count_append, List.count_cons]⟩
    obtain ⟨w2, h2, hl2, hf2⟩ : ∃ w2, ref_release sz t (res + sz) w1 = .ok w2 ∧
        w2.heap res = some { data := res + sz, mutex := .unlocked, ref := 0 } ∧
        frees res w2.log = frees res w1.log :=
      ⟨_, ref_release_eq_keep sz t res w1 _ hl1 rfl (by simp), by simp [wrapInt],
        by simp [frees, List.count_append, List.count_cons]⟩
    obtain ⟨w3, h3, hl3, hf3⟩ : ∃ w3, ref_count sz t (res + sz) w2 = .ok (0, w3) ∧
        w3.heap res = some { data := res + sz, mutex := .unlocked, ref := 0 } ∧
        frees res w3.log = frees res w2.log :=
      ⟨_, ref_count_eq sz t res w2 _ hl2 rfl, hl2,
        by simp [frees, List.count_append, List.count_cons]⟩
    obtain ⟨w4, h4, hl4, hf4⟩ : ∃ w4, ref_release sz t (res + sz) w3 = .ok w4 ∧
        w4.heap res = none ∧ frees res w4.log = frees res w3.log + 1 :=
      ⟨_, ref_release_eq_free sz t res w3 _ hl3 rfl rfl, by simp,
        by simp [frees, List.count_append, List.count_cons]⟩
    exact ⟨w1, w2, w3, w4, h1, h2, hl2, by rw [hf2, hf1], h3, h4, hl4,
      by rw [hf4, hf3, hf2, hf1]⟩


/-- C15 at a concrete input: a 4-byte object allocated in the empty world. -/
theorem ref_release_tests_count_before_decrement_witness :
    (∀ (w0 : World) (a : Addr) (o : obj_t), w0.heap a = some o → o.mutex = .unlocked →
      ∃ w1, ref_release 56 3 (a + 56) w0 = .ok w1 ∧ (w1.heap a = none ↔ o.ref = 0) ∧
        (frees a w1.log = frees a w0.log + 1 ↔ o.ref = 0)) ∧
    (∃ w1 w2 w3 w4, ref_alloc 56 4 1000 0 World.empty = .ok (1000 + 56, w1) ∧
      ref_release 56 3 (1000 + 56) w1 = .ok w2 ∧
      w2.heap 1000 = some { data := 1000 + 56, mutex := .unlocked, ref := 0 } ∧
      frees 1000 w2.log = frees 1000 World.empty.log ∧
      ref_count 56 3 (1000 + 56) w2 = .ok (0, w3) ∧
      ref_release 56 3 (1000 + 56) w3 = .ok w4 ∧
      w4.heap 1000 = none ∧ frees 1000 w4.log = frees 1000 World.empty.log + 1) :=
  ref_release_tests_count_before_decrement 56 4 1000 World.empty 3 (by decide) (by decide)

/-- C16: on a live block, whenever `ref_count` returns, the heap is what it
was before the call (count, liveness and lock state of every block); whenever
one of the three lock wrappers returns, the block is still allocated with the
same count and the same `data`, only its mutex, the other blocks of the heap
not at all, may have changed; and these calls do return: `ref_count`, the
lock and the trylock on a free mutex, the trylock on a held one, the unlock by
the thread that holds the mutex. -/
theorem read_only_calls_frame (sz : Nat) (t : Tid) (a : Addr) (w : World) (o : obj_t)
    (hl : w.heap a = some o) :
    (∀ v w1, ref_count sz t (a + sz) w = .ok (v, w1) → v = o.ref ∧ w1.heap = w.heap) ∧
    (∀ st w1, (ref_pthread_mutex_lock sz t (a + sz) w = .ok (st, w1) ∨
        ref_pthread_mutex_unlock sz t (a + sz) w = .ok (st, w1) ∨
        ref_pthread_mutex_trylock sz t (a + sz) w = .ok (st, w1)) →
      ∃ m, w1.heap = Function.update w.heap a (some { o with mutex := m }) ∧
        w1.heap a = some { data := o.data, mutex := m, ref := o.ref } ∧
        ∀ b, b ≠ a → w1.heap b = w.heap b) ∧
    (o.mutex = .unlocked →
      (∃ w1, ref_count sz t (a + sz) w = .ok (o.ref, w1)) ∧
      (∃ w1, ref_pthread_mutex_lock sz t (a + sz) w = .ok (0, w1)) ∧
      (∃ w1, ref_pthread_mutex_trylock sz t (a + sz) w = .ok (0, w1))) ∧
    (∀ u, o.mutex = .lockedBy u →
      (∃ w1, ref_pthread_mutex_trylock sz t (a + sz) w = .ok (EBUSY, w1)) ∧
      (∃ w1, ref_pthread_mutex_unlock sz u (a + sz) w = .ok (0, w1))) := by
  refine ⟨?_, ?_, ?_, ?_⟩
  · intro v w1 h
    cases hm : o.mutex with
    | unlocked =>
      rw [ref_count_eq sz t a w o hl hm] at h
      simp only [Except.ok.injEq, Prod.mk.injEq] at h
      exact ⟨h.1.symm, by rw [← h.2]⟩
    | uninit =>
      simp [ref_count, header_add, mutexOp, hl, hm, pthread_mutex_lock, bind, Except.bind] at h
    | lockedBy u =>
      simp [ref_count, header_add, mutexOp, hl, hm, pthread_mutex_lock, bind, Except.bind] at h
    | destroyed =>
      simp [ref_count, header_add, mutexOp, hl, hm, pthread_mutex_lock, bind, Except.bind] at h
    | failing s =>
      by_cases hs : s = 0
      · simp [ref_count, header_add, mutexOp, hl, hm, hs, pthread_mutex_lock, bind,
          Except.bind] at h
      · simp [ref_count, header_add, mutexOp, hl, hm, hs, pthread_mutex_lock,
          pthread_mutex_unlock, loadRef, World.store, World.emit, bind, Except.bind, pure,
          Except.pure] at h
        obtain ⟨h1, h2⟩ := h
        refine ⟨h1.symm, ?_⟩
        rw [← h2]
        simp only [Function.update_eq_self_iff, hl]
        cases o
        simp_all
  · intro st w1 h
    have key : ∀ (prim : Mutex → Except Stuck (Int × Mutex)) (ev : Int → Event),
        mutexOp prim ev a w = .ok (st, w1) →
        ∃ m, w1.heap = Function.update w.heap a (some { o with mutex := m }) := by
      intro prim ev hp
      simp only [mutexOp, hl] at hp
      cases hr : prim o.mutex with
      | error e => simp [hr] at hp
      | ok r =>
        simp only [hr, Except.ok.injEq, Prod.mk.injEq] at hp
        exact ⟨r.2, by rw [← hp.2]; simp [World.store, World.emit]⟩
    have hm : ∃ m, w1.heap = Function.update w.heap a (some { o with mutex := m }) := by
      rcases h with h | h | h
      · simp only [ref_pthread_mutex_lock, header_add, bind, Except.bind] at h
        exact key _ _ h
      · simp only [ref_pthread_mutex_unlock, header_add, bind, Except.bind] at h
        exact key _ _ h
      · simp only [ref_pthread_mutex_trylock, header_add, bind, Except.bind] at h
        exact key _ _ h
    obtain ⟨m, hm⟩ := hm
    refine ⟨m, hm, by rw [hm]; simp, ?_⟩
    intro b hb
    rw [hm]
    exact Function.update_noteq hb _ _
  · intro hm
    exact ⟨⟨_, ref_count_eq sz t a w o hl hm⟩,
      ⟨_, by simp [ref_pthread_mutex_lock, header_add, mutexOp, hl, hm, pthread_mutex_lock,
        bind, Except.bind]; rfl⟩,
      ⟨_, by simp [ref_pthread_mutex_trylock, header_add, mutexOp, hl, hm,
        pthread_mutex_trylock, bind, Except.bind]; rfl⟩⟩
  · intro u hm
    exact ⟨⟨_, by simp [ref_pthread_mutex_trylock, header_add, mutexOp, hl, hm,
        pthread_mutex_trylock, bind, Except.bind]; rfl⟩,
      ⟨_, by simp [ref_pthread_mutex_unlock, header_add, mutexOp, hl, hm,
        pthread_mutex_unlock, bind, Except.bind]; rfl⟩⟩

/-- C16 at concrete inputs: `ref_count` on a block of count 7 whose mutex is
free returns 7 and leaves the heap as it was, and the unlock by the holder of
the mutex changes nothing but the mutex. -/
theorem read_only_calls_frame_witness :
    (∀ v w1, ref_count 56 2 (1000 + 56) (sample 7) = .ok (v, w1) →
      v = (obj_t.mk 1056 .unlocked 7).ref ∧ w1.heap = (sample 7).heap) ∧
    (∃ w1, ref_count 56 2 (1000 + 56) (sample 7) = .ok ((obj_t.mk 1056 .unlocked 7).ref, w1)) ∧
    (∃ w1, ref_pthread_mutex_unlock 56 5 (1000 + 56) (sampleHeld 7 5) = .ok (0, w1)) ∧
    (∀ st w1, (ref_pthread_mutex_lock 56 5 (1000 + 56) (sampleHeld 7 5) = .ok (st, w1) ∨
        ref_pthread_mutex_unlock 56 5 (1000 + 56) (sampleHeld 7 5) = .ok (st, w1) ∨
        ref_pthread_mutex_trylock 56 5 (1000 + 56) (sampleHeld 7 5) = .ok (st, w1)) →
      ∃ m, w1.heap = Function.update (sampleHeld 7 5).heap 1000
          (some { data := 1056, mutex := m, ref := 7 }) ∧
        w1.heap 1000 = some { data := 1056, mutex := m, ref := 7 } ∧
        ∀ b, b ≠ 1000 → w1.heap b = (sampleHeld 7 5).heap b) :=
  ⟨(read_only_calls_frame 56 2 1000 (sample 7) _ (sample_heap 7)).1,
    ((read_only_calls_frame 56 2 1000 (sample 7) _ (sample_heap 7)).2.2.1 rfl).1,
    ((read_only_calls_frame 56 2 1000 (sampleHeld 7 5) _ (sampleHeld_heap 7 5)).2.2.2 5 rfl).2,
    (read_only_calls_frame 56 5 1000 (sampleHeld 7 5) _ (sampleHeld_heap 7 5)).2.1⟩

end Refcount
